/-
Verification of the retrieval-and-answer pipeline behind the chat endpoint
(backend route `POST /api/chat`, file `backend/src/routes/chat.ts`, together
with the SQL function `search_similar_companies` from the migrations).

The route is embedded shallowly: every external call (Supabase store queries,
the embedding provider, the completion provider) is modelled by a response
recorded in an `Env` record, exactly mirroring how the unit tests mock these
dependencies, and the handler is a pure function from `Env` and a request body
to a response together with a trace of the external calls it made.

Numbers: the JavaScript `number` arithmetic of the route is modelled by exact
rational arithmetic.  The only irrational value produced by the code is the
cosine similarity `dp / (sqrt nA * sqrt nB)`; it is represented exactly by the
record of its three rational sums (`CosParts`), and every comparison the code
performs on such values is decided in rational arithmetic through the strictly
monotone encoding `s ↦ sign s * s ^ 2` (`CosParts.simVal`).  The JavaScript
`NaN` produced by a zero denominator is tracked explicitly.
-/
import Mathlib

unseal Rat.mul Rat.add Rat.inv Rat.sub Rat.ofScientific

namespace RadChat

/-- One row of the `companies` table, restricted to the fields the chat route
reads (`id`, the projection fields, and `slug`); the remaining columns of
`backend/src/types/database.ts` are never consulted by the route. -/
structure Company where
  id : String
  name : String
  slug : String
  radical_primary_category : Option String
  radical_all_categories : List String
  tagline : Option String
  description : Option String
  radical_investment_year : Option Int
  all_sectors : List String
  primary_sector : Option String
  deriving Repr, DecidableEq

/-- The lightweight projection of a company placed into the portfolio context
(`portfolioCompanies.map` in the route). -/
structure Proj where
  name : String
  slug : String
  radical_primary_category : Option String
  radical_all_categories : List String
  tagline : Option String
  description : Option String
  radical_investment_year : Option Int
  all_sectors : List String
  primary_sector : Option String
  deriving Repr, DecidableEq

/-- A citation entry of the `sources` array of the response. -/
structure SourceItem where
  name : String
  slug : String
  radical_primary_category : Option String
  deriving Repr, DecidableEq

/-- Projection used for the portfolio context, as in the route. -/
def Company.toProj (c : Company) : Proj :=
  { name := c.name
    slug := c.slug
    radical_primary_category := c.radical_primary_category
    radical_all_categories := c.radical_all_categories
    tagline := c.tagline
    description := c.description
    radical_investment_year := c.radical_investment_year
    all_sectors := c.all_sectors
    primary_sector := c.primary_sector }

/-- Projection used for the `sources` array, as in the route. -/
def Company.toSource (c : Company) : SourceItem :=
  { name := c.name
    slug := c.slug
    radical_primary_category := c.radical_primary_category }

instance {ε α : Type} [DecidableEq ε] [DecidableEq α] : DecidableEq (Except ε α) :=
  fun a b =>
    match a, b with
    | .ok x, .ok y => decidable_of_iff (x = y) (by simp)
    | .error x, .error y => decidable_of_iff (x = y) (by simp)
    | .ok _, .error _ => isFalse (by simp)
    | .error _, .ok _ => isFalse (by simp)

/-! ### Exact representation of cosine similarities

`cosineDistance` in the route computes `1 - dp / (sqrt nA * sqrt nB)` where
`dp`, `nA`, `nB` are the three sums accumulated by its loop.  We keep the three
rational sums; the real value they denote is recovered through the monotone
encoding below, so that every comparison the code makes is decidable. -/

/-- The three sums accumulated by the loop of `cosineDistance`:
dot product, squared norm of the first argument, squared norm of the second. -/
structure CosParts where
  dp : ℚ
  nA : ℚ
  nB : ℚ
  deriving Repr, DecidableEq

/-- Product of the two squared norms: the square of the denominator
`sqrt nA * sqrt nB` of the cosine similarity. -/
def CosParts.den (c : CosParts) : ℚ := c.nA * c.nB

/-- Strictly monotone rational encoding of a real of the form `x` by
`sign x * x ^ 2`:  for rationals it is `signedSq`, and for the cosine
similarity `dp / sqrt den` it is `CosParts.simVal`.  Two such reals compare
exactly as their encodings do. -/
def signedSq (x : ℚ) : ℚ := if 0 ≤ x then x ^ 2 else -(x ^ 2)

/-- Encoding of the cosine similarity `dp / (sqrt nA * sqrt nB)` under
`x ↦ sign x * x ^ 2`; equals `sign dp * dp ^ 2 / (nA * nB)`.  When the
denominator is zero (a zero-norm vector) the similarity is the JavaScript
`NaN`; that case is detected separately by `CosParts.isNaN`. -/
def CosParts.simVal (c : CosParts) : ℚ :=
  if 0 ≤ c.dp then c.dp ^ 2 / c.den else -(c.dp ^ 2 / c.den)

/-- The similarity is the JavaScript `NaN` exactly when the denominator
`sqrt nA * sqrt nB` is zero. -/
def CosParts.isNaN (c : CosParts) : Bool := c.den == 0

/-- The sums of the loop of `cosineDistance`, for two vectors of equal length
(the function throws on unequal lengths before reaching the loop). -/
def cosineParts (a b : List ℚ) : CosParts :=
  { dp := (a.zip b).foldl (fun s p => s + p.1 * p.2) 0
    nA := a.foldl (fun s x => s + x * x) 0
    nB := b.foldl (fun s x => s + x * x) 0 }

/-- Model of the function `cosineDistance` of the route: it throws
(`none`) when the two vectors have different lengths, and otherwise returns
the value `1 - dp / (sqrt nA * sqrt nB)` represented by its `CosParts`. -/
def cosineDistance (a b : List ℚ) : Option CosParts :=
  if a.length ≠ b.length then none else some (cosineParts a b)

/-- Decision of `1 - dp / (sqrt nA * sqrt nB) < 1/2`, the similarity-floor
test `distance < 0.5` applied by the client-side path.  The inequality holds
exactly when the similarity exceeds `1/2`, i.e. when `dp > 0` and
`4 * dp ^ 2 > nA * nB`; when the similarity is `NaN` (zero denominator, which
forces `dp = 0`) the JavaScript comparison is false, as here. -/
def CosParts.distLtHalf (c : CosParts) : Bool :=
  0 < c.dp && c.den < 4 * c.dp ^ 2

/-- Relevance distance attached to a retrieval candidate.  The route uses
exact rational constants (`0`, `0.8`, `0.9`, `1.0`), the value
`1 - dp / (sqrt nA * sqrt nB)` computed by `cosineDistance` on the client-side
path (`dist`), and — through the SQL function — the similarity
`1 - (embedding <=> query)` returned as the `distance` column (`sim`). -/
inductive Dist where
  | rat (x : ℚ)
  | sim (c : CosParts)
  | dist (c : CosParts)
  deriving Repr, DecidableEq

/-- Comparison of two relevance values by the real numbers they denote,
decided through the monotone encoding `x ↦ sign x * x ^ 2`.  A `sim` value
denotes the similarity `s`, a `dist` value denotes `1 - s`; both kinds never
appear in the same stage output, so the two mixed cases (which are not
expressible in rational arithmetic) are never exercised and are set to
`true`. -/
def Dist.leB : Dist → Dist → Bool
  | .rat x, .rat y => x ≤ y
  | .rat x, .sim c => signedSq x ≤ c.simVal
  | .sim c, .rat x => c.simVal ≤ signedSq x
  | .sim c₁, .sim c₂ => c₁.simVal ≤ c₂.simVal
  | .dist c₁, .dist c₂ => c₂.simVal ≤ c₁.simVal
  | .rat x, .dist c => c.simVal ≤ signedSq (1 - x)
  | .dist c, .rat x => signedSq (1 - x) ≤ c.simVal
  | .sim _, .dist _ => true
  | .dist _, .sim _ => true

/-- JavaScript falsiness of a relevance value, used by the route in
`distance || 0`: a number is falsy when it is `0` or `NaN`. -/
def Dist.isFalsy : Dist → Bool
  | .rat x => x == 0
  | .sim c => c.den == 0 || c.dp == 0
  | .dist c => c.den == 0 || c.simVal == 1

/-! ### Store and provider interface -/

/-- A stored embedding value as it arrives from Supabase.  The route accepts a
native numeric array, or a string which it decodes by `JSON.parse` and, failing
that, by the PostgreSQL array format; any other shape is skipped.  The two
character-level string decoders are represented by the vector the string
decodes to (`str (some v)`), or `str none` for a string whose `JSON.parse`
yields a non-array value; no claim depends on the character-level parsing
itself. -/
inductive EmbVal where
  | arr (v : List ℚ)
  | str (decoded : Option (List ℚ))
  | other
  deriving Repr, DecidableEq

/-- The `embVector` normalisation step of the route: a native array is used as
is, a string is decoded, anything else makes the row return `null`
(skipped). -/
def EmbVal.decode : EmbVal → Option (List ℚ)
  | .arr v => some v
  | .str d => d
  | .other => none

/-- One row of the `company_embeddings` fetch on the client-side path. -/
structure EmbRow where
  company_id : String
  embedding : EmbVal
  deriving Repr, DecidableEq

/-- One row returned by the `search_similar_companies` RPC as consumed by the
route: a company record together with its `distance` column (possibly
absent). -/
structure RpcRow where
  company : Company
  distance : Option Dist
  deriving Repr, DecidableEq

/-- Result of one Supabase query: the `data` field (`none` models `null`) and
the truthiness of the `error` field. -/
structure StoreResp (α : Type) where
  data : Option α
  err : Bool
  deriving Repr, DecidableEq

/-- Responses of the external collaborators for one request, one per call
site of the route, exactly as the unit tests mock them.  `Except.error`
models a rejected promise (a thrown provider error). -/
structure Env where
  companyBySlug : String → Option Company
  embeddingCount : Option Nat
  keywordA : Option (List Company)
  genEmbedding : Except Unit (List ℚ)
  rpc : StoreResp (List RpcRow)
  embRows : StoreResp (List EmbRow)
  companiesByIds : Option (List Company)
  keywordB : StoreResp (List Company)
  allCompanies : StoreResp (List Company)
  complete1 : Except Unit String
  complete2 : Except Unit String

/-- Trace of the external calls made while handling one request, in order. -/
inductive Ev where
  | selectLookup (slug : String)
  | countProbe
  | keywordACall (term : String) (lim : Nat)
  | embedCall (text : String)
  | rpcCall (threshold : ℚ) (cnt : Nat)
  | fetchEmbRows
  | fetchByIds (ids : List String)
  | keywordBCall (term : String) (lim : Nat)
  | fetchAll (lim : Nat)
  | completeCall (sys : String) (usr : String) (ctx : List Proj)
  deriving Repr, DecidableEq

/-- Whether a trace event is an invocation of the embedding provider. -/
def Ev.isEmbed : Ev → Bool
  | .embedCall _ => true
  | _ => false

/-- Whether a trace event is an invocation of the completion provider. -/
def Ev.isComplete : Ev → Bool
  | .completeCall _ _ _ => true
  | _ => false

/-! ### Request validation (`chatRequestSchema`) -/

/-- The request body: `message` (absent or a string), `selectedCompanySlug`
(absent, or null, or a string), `topK` (absent or a number, kept as an exact
rational so that the integrality check of the schema is meaningful). -/
structure ReqBody where
  message : Option String
  selectedCompanySlug : Option (Option String)
  topK : Option ℚ
  deriving Repr, DecidableEq

/-- The validated request: non-empty message, the slug as given (null and
absent both collapse to `none`), and `topK` defaulted to `5`. -/
structure ValidReq where
  message : String
  selectedCompanySlug : Option String
  topK : Nat
  deriving Repr, DecidableEq

/-- Model of `chatRequestSchema.safeParse`: `message` must be a present,
non-empty string; `topK`, when present, must be an integer between 1 and 10
(out-of-range values are rejected, not clamped) and defaults to 5 when
absent. -/
def chatRequestSchemaParse (b : ReqBody) : Option ValidReq :=
  match b.message with
  | none => none
  | some m =>
    if m.length = 0 then none
    else
      let slug : Option String :=
        match b.selectedCompanySlug with
        | some (some s) => some s
        | _ => none
      match b.topK with
      | none => some ⟨m, slug, 5⟩
      | some q =>
        if q.den = 1 ∧ 1 ≤ q ∧ q ≤ 10 then some ⟨m, slug, q.num.toNat⟩ else none

/-! ### Retrieval stages -/

/-- A retrieval candidate as held in `topCompanies`: the company (which on the
client-side path is the result of a `find` and may be `undefined`, hence the
option) and its relevance distance. -/
abbrev SC := Option Company × Dist

/-- Model of the JavaScript `toLowerCase()` (ASCII case folding; none of the
strings the route compares case-insensitively contain letters outside
ASCII). -/
def lowerStr (s : String) : String := ⟨s.data.map Char.toLower⟩

/-- Splitting on runs of whitespace, modelling `split(/\s+/)` up to empty
fragments, which every use below removes by a length filter. -/
def splitWsAux : List Char → List Char → List (List Char)
  | [], cur => [cur.reverse]
  | c :: cs, cur =>
    if c.isWhitespace then cur.reverse :: splitWsAux cs []
    else splitWsAux cs (c :: cur)

/-- The word list of a string, split on whitespace. -/
def splitWs (s : String) : List String :=
  (splitWsAux s.data []).map fun l => ⟨l⟩

/-- Tokenisation used by both keyword stages: lower-case the message, split on
whitespace, keep the words longer than `n` characters. -/
def tokensLonger (n : Nat) (msg : String) : List String :=
  (splitWs (lowerStr msg)).filter (fun w => n < w.length)

/-- Keyword search of the no-embeddings branch: tokens longer than 2, ILIKE
query on the first token with limit `topK * 2`, first `topK` rows kept, each
with distance `0.9`. -/
def branchA (env : Env) (msg : String) (topK : Nat) : List SC × List Ev :=
  let terms := tokensLonger 2 msg
  match terms with
  | [] => ([], [])
  | t :: _ =>
    match env.keywordA with
    | some ks =>
      if ks.length > 0 then
        (((ks.take topK).map fun c => ((some c : Option Company), Dist.rat (9/10))),
          [Ev.keywordACall t (topK * 2)])
      else ([], [Ev.keywordACall t (topK * 2)])
    | none => ([], [Ev.keywordACall t (topK * 2)])

/-- Sequential map over a fallible elementwise computation, stopping at the
first thrown error: the semantics of a JavaScript `map` whose body may
throw. -/
def mapExcept (f : α → Except Unit β) : List α → Except Unit (List β)
  | [] => .ok []
  | a :: as =>
    match f a with
    | .error e => .error e
    | .ok b =>
      match mapExcept f as with
      | .error e => .error e
      | .ok bs => .ok (b :: bs)

/-- Scoring of one embedding row on the client-side path: decode the vector,
skip it (`none`) if the decode fails or the length differs from the query
embedding, otherwise compute the cosine distance (whose internal length check
can then no longer throw) and keep the row only when the distance is below
the `0.5` floor. -/
def scoreRow (q : List ℚ) (row : EmbRow) : Except Unit (Option (String × CosParts)) :=
  match row.embedding.decode with
  | none => .ok none
  | some v =>
    if v.length ≠ q.length then .ok none
    else
      match cosineDistance q v with
      | none => .error ()
      | some c => .ok (if c.distLtHalf then some (row.company_id, c) else none)

/-- Ascending comparison by the distance `1 - s`, i.e. descending comparison
of the similarity encodings: the comparator `(a, b) => a.distance - b.distance`
of the route. -/
def distAscRel (a b : String × CosParts) : Prop := b.2.simVal ≤ a.2.simVal

instance : DecidableRel distAscRel :=
  fun a b => inferInstanceAs (Decidable (b.2.simVal ≤ a.2.simVal))

instance : IsTotal (String × CosParts) distAscRel :=
  ⟨fun a b => le_total b.2.simVal a.2.simVal⟩

instance : IsTrans (String × CosParts) distAscRel :=
  ⟨fun _ _ _ h₁ h₂ => le_trans h₂ h₁⟩

/-- The `similarities` computation of the client-side path: score every row,
drop the skipped ones, sort ascending by distance (a stable sort, matching the
stable sort the JavaScript engine guarantees) and keep the first `topK`. -/
def clientSimilarities (q : List ℚ) (rows : List EmbRow) (topK : Nat) :
    Except Unit (List (String × CosParts)) :=
  (mapExcept (scoreRow q) rows).map fun l =>
    (((l.filterMap id).insertionSort distAscRel).take topK)

/-- The client-side similarity path taken when the RPC errors: fetch the
embedding rows, compute the similarities, fetch the matching companies and
pair each similarity with the company found for its id (`undefined` when the
fetch did not return it). -/
def clientPath (env : Env) (q : List ℚ) (topK : Nat) :
    Except Unit (List SC) × List Ev :=
  match env.embRows.data, env.embRows.err with
  | some rows, false =>
    if rows.length > 0 then
      match clientSimilarities q rows topK with
      | .error _ => (.error (), [Ev.fetchEmbRows])
      | .ok sims =>
        let ids := sims.map (·.1)
        match env.companiesByIds with
        | some cs =>
          (.ok (sims.map fun s => (cs.find? (fun c => c.id == s.1), Dist.dist s.2)),
            [Ev.fetchEmbRows, Ev.fetchByIds ids])
        | none => (.ok [], [Ev.fetchEmbRows, Ev.fetchByIds (sims.map (·.1))])
    else (.ok [], [Ev.fetchEmbRows])
  | _, _ => (.ok [], [Ev.fetchEmbRows])

/-- Mapping of one RPC row into a candidate: `distance || 0`. -/
def rpcMapRow (r : RpcRow) : SC :=
  (some r.company,
    match r.distance with
    | none => Dist.rat 0
    | some d => if d.isFalsy then Dist.rat 0 else d)

/-- The vector-search portion of the embeddings-present branch: call the RPC
with threshold `0.5`; on an RPC error fall back to the client-side path; on
RPC data use the rows as returned. -/
def vecStage (env : Env) (q : List ℚ) (topK : Nat) :
    Except Unit (List SC) × List Ev :=
  if env.rpc.err then
    let (r, tr) := clientPath env q topK
    (r, Ev.rpcCall (1/2) topK :: tr)
  else
    match env.rpc.data with
    | some rows =>
      if rows.length > 0 then (.ok (rows.map rpcMapRow), [Ev.rpcCall (1/2) topK])
      else (.ok [], [Ev.rpcCall (1/2) topK])
    | none => (.ok [], [Ev.rpcCall (1/2) topK])

/-- Keyword fallback of the embeddings-present branch: tokens longer than 3,
ILIKE query on the first token with limit `topK`, every returned row kept with
distance `0.8`. -/
def keywordFallback (env : Env) (msg : String) (topK : Nat) : List SC × List Ev :=
  let terms := tokensLonger 3 msg
  match terms with
  | [] => ([], [])
  | t :: _ =>
    match env.keywordB.data, env.keywordB.err with
    | some ks, false =>
      if ks.length > 0 then
        ((ks.map fun c => ((some c : Option Company), Dist.rat (4/5))),
          [Ev.keywordBCall t topK])
      else ([], [Ev.keywordBCall t topK])
    | _, _ => ([], [Ev.keywordBCall t topK])

/-- Blind fallback of the embeddings-present branch: fetch the first 30
companies and return them all with the worst distance `1.0`. -/
def blindFallback (env : Env) : List SC × List Ev :=
  match env.allCompanies.data, env.allCompanies.err with
  | some cs, false =>
    if cs.length > 0 then
      ((cs.map fun c => ((some c : Option Company), Dist.rat 1)), [Ev.fetchAll 30])
    else ([], [Ev.fetchAll 30])
  | _, _ => ([], [Ev.fetchAll 30])

/-- The embeddings-present branch: generate the query embedding (a provider
failure is a thrown error), run the vector stage, then — only when it yielded
no candidate — the keyword fallback and, still empty, the blind fallback. -/
def branchB (env : Env) (msg : String) (topK : Nat) :
    Except Unit (List SC) × List Ev :=
  match env.genEmbedding with
  | .error _ => (.error (), [Ev.embedCall msg])
  | .ok q =>
    match vecStage env q topK with
    | (.error e, tr) => (.error e, Ev.embedCall msg :: tr)
    | (.ok top, tr) =>
      if top.isEmpty then
        let (top₂, tr₂) := keywordFallback env msg topK
        if top₂.isEmpty then
          let (top₃, tr₃) := blindFallback env
          (.ok top₃, Ev.embedCall msg :: (tr ++ tr₂ ++ tr₃))
        else (.ok top₂, Ev.embedCall msg :: (tr ++ tr₂))
      else (.ok top, Ev.embedCall msg :: tr)

/-- The full retrieval cascade: probe the embedding count; when it is null or
zero take the no-embeddings keyword branch, otherwise the embeddings-present
branch. -/
def retrieveC (env : Env) (msg : String) (topK : Nat) :
    Except Unit (List SC) × List Ev :=
  match env.embeddingCount with
  | none =>
    let (top, tr) := branchA env msg topK
    (.ok top, Ev.countProbe :: tr)
  | some 0 =>
    let (top, tr) := branchA env msg topK
    (.ok top, Ev.countProbe :: tr)
  | some (_ + 1) =>
    let (r, tr) := branchB env msg topK
    (r, Ev.countProbe :: tr)

/-- Lookup of the pinned company: skipped when the slug is falsy (empty), and
a lookup failure silently yields no pin. -/
def resolveSelected (env : Env) (slug : Option String) :
    Option Company × List Ev :=
  match slug with
  | none => (none, [])
  | some s => if s = "" then (none, []) else (env.companyBySlug s, [Ev.selectLookup s])

/-! ### Context assembly, prompts and verification -/

/-- Projection of the retrieved candidates into the portfolio context shape;
a candidate whose company is `undefined` (a failed `find` on the client-side
path) makes the map throw. -/
def projectAll (top : List SC) : Except Unit (List Proj) :=
  mapExcept (fun sc =>
    match sc.1 with
    | none => .error ()
    | some c => .ok c.toProj) top

/-- The `portfolioCompanies` list passed (serialised) to the completion
provider: the projected candidates, with the pinned company prepended when no
candidate already carries its slug. -/
def buildPortfolio (sel : Option Company) (top : List SC) : Except Unit (List Proj) :=
  (projectAll top).map fun ps =>
    match sel with
    | none => ps
    | some c => if (ps.find? (fun p => p.slug == c.slug)).isSome then ps else c.toProj :: ps

/-- Projection of the retrieved candidates into citation entries. -/
def sourcesOf (top : List SC) : Except Unit (List SourceItem) :=
  mapExcept (fun sc =>
    match sc.1 with
    | none => .error ()
    | some c => .ok c.toSource) top

/-- The `sources` array of the response: the projected candidates, with the
pinned company prepended when no entry already carries its slug. -/
def buildSources (sel : Option Company) (top : List SC) : Except Unit (List SourceItem) :=
  (sourcesOf top).map fun ss =>
    match sel with
    | none => ss
    | some c => if (ss.find? (fun s => s.slug == c.slug)).isSome then ss else c.toSource :: ss

/-- JSON rendering of a string (escaping of special characters inside the
string is not modelled; no claim depends on it). -/
def jsonStr (s : String) : String := "\"" ++ s ++ "\""

/-- JSON rendering of a nullable string. -/
def jsonOptStr : Option String → String
  | none => "null"
  | some s => jsonStr s

/-- JSON rendering of a string array. -/
def jsonStrList (l : List String) : String :=
  "[" ++ String.intercalate ", " (l.map jsonStr) ++ "]"

/-- JSON rendering of a nullable integer. -/
def jsonOptInt : Option Int → String
  | none => "null"
  | some i => toString i

/-- JSON rendering of one context entry, modelling `JSON.stringify` up to
whitespace. -/
def serializeProj (p : Proj) : String :=
  "\x7b \"name\": " ++ jsonStr p.name ++
  ", \"slug\": " ++ jsonStr p.slug ++
  ", \"radical_primary_category\": " ++ jsonOptStr p.radical_primary_category ++
  ", \"radical_all_categories\": " ++ jsonStrList p.radical_all_categories ++
  ", \"tagline\": " ++ jsonOptStr p.tagline ++
  ", \"description\": " ++ jsonOptStr p.description ++
  ", \"radical_investment_year\": " ++ jsonOptInt p.radical_investment_year ++
  ", \"all_sectors\": " ++ jsonStrList p.all_sectors ++
  ", \"primary_sector\": " ++ jsonOptStr p.primary_sector ++ " \x7d"

/-- The serialised portfolio context (`JSON.stringify(portfolioCompanies,
null, 2)`, modelled up to whitespace). -/
def portfolioContextJson (ctx : List Proj) : String :=
  "[" ++ String.intercalate ",\n" (ctx.map serializeProj) ++ "]"

/-- The fixed system instruction of the route, verbatim. -/
def systemPrompt : String :=
  "You are Radical Portfolio Copilot, an internal assistant for Radical Ventures.\nYou ONLY know about the companies provided to you in the \"portfolio_context\" section below.\n\nRules:\n- When the user asks \"which companies...?\", you MUST answer ONLY with companies from the portfolio_context.\n- Do NOT mention or invent companies that are not in the portfolio_context, even if you know them from elsewhere.\n- If the portfolio_context does not contain any relevant companies, say so explicitly (e.g. \"Based on the provided Radical Ventures portfolio, I do not see any companies focused on X.\").\n- When you mention a company, always include its slug and primary category for clarity.\n- Keep answers concise and analytical, grounded in the descriptions and metadata you are given.\n\nIf a user asks a general AI/tech question that is not about the Radical Ventures portfolio, you may give a brief generic answer BUT you must clearly label it as \"outside portfolio context\" and keep it secondary."

/-- The user instruction of the route, verbatim, with the serialised context
and the question substituted into the template. -/
def mkUserInstruction (ctxJson msg : String) : String :=
  "PORTFOLIO_CONTEXT (JSON array of Radical Ventures portfolio companies):\n" ++ ctxJson ++
  "\n\nUsing ONLY the portfolio_context JSON above, answer the following question:\n\nQuestion: \"" ++ msg ++
  "\"\n\nRespond with clean, readable text (NO markdown formatting like * or **). Use plain text formatting:\n- Start with a short sentence summarizing how many companies in the portfolio fit (if applicable).\n- Then list each relevant company on a new line with:\n  • Company name (in bold by using clear emphasis, but write it as plain text)\n  • slug: [slug]\n  • primary category: [category]\n  • 1–2 sentences explaining why they are relevant\n\nFormat your response as clean, readable text without markdown syntax. Use line breaks and simple formatting that reads naturally.\n\nDo NOT mention companies not present in portfolio_context."

/-- The augmented system instruction sent for the single regeneration,
verbatim, naming the violating terms. -/
def stricterPrompt (viol : List String) : String :=
  systemPrompt ++
  "\n\nCRITICAL: The previous response mentioned companies that are NOT in the Radical Ventures portfolio: " ++
  String.intercalate ", " viol ++
  ". You must ONLY mention companies from the portfolio_context JSON provided above. Do not mention any companies outside the portfolio_context."

/-- The fixed deny-list of well-known outside-domain company names. -/
def forbiddenExamples : List String :=
  ["nvidia", "google", "microsoft", "amazon", "intel", "amd",
   "openai", "anthropic", "meta", "facebook", "apple", "tesla"]

/-- Prefix test on character lists. -/
def isPrefixList : List Char → List Char → Bool
  | [], _ => true
  | _ :: _, [] => false
  | a :: as, b :: bs => a == b && isPrefixList as bs

/-- Substring test on character lists. -/
def containsSubAux (needle : List Char) : List Char → Bool
  | [] => isPrefixList needle []
  | c :: cs => isPrefixList needle (c :: cs) || containsSubAux needle cs

/-- Model of the JavaScript `hay.includes(needle)`. -/
def containsSub (hay needle : String) : Bool :=
  containsSubAux needle.toList hay.toList

/-- The hallucination scan: the deny-list terms appearing (case-insensitive)
as substrings of the answer, in deny-list order. -/
def violationsOf (answer : String) : List String :=
  forbiddenExamples.filter (fun t => containsSub (lowerStr answer) t)

/-- Outcome of one request. -/
inductive ChatResult where
  | badRequest
  | ok (answer : String) (sources : List SourceItem)
  | serverError
  deriving Repr, DecidableEq

/-- Everything after retrieval: build the context, call the completion
provider, scan for forbidden terms, regenerate at most once with the stricter
instruction, and assemble the citation list.  Each `completeCall` event
records the system instruction, the full user instruction, and the structured
context list whose serialisation the user instruction embeds. -/
def finishChat (env : Env) (sel : Option Company) (msg : String) (top : List SC) :
    ChatResult × List Ev :=
  match buildPortfolio sel top with
  | .error _ => (.serverError, [])
  | .ok ctx =>
    let usr := mkUserInstruction (portfolioContextJson ctx) msg
    let ev₁ := Ev.completeCall systemPrompt usr ctx
    match env.complete1 with
    | .error _ => (.serverError, [ev₁])
    | .ok ans₁ =>
      let viol := violationsOf ans₁
      if viol.isEmpty then
        match buildSources sel top with
        | .error _ => (.serverError, [ev₁])
        | .ok srcs => (.ok ans₁ srcs, [ev₁])
      else
        let ev₂ := Ev.completeCall (stricterPrompt viol) usr ctx
        match env.complete2 with
        | .error _ => (.serverError, [ev₁, ev₂])
        | .ok ans₂ =>
          match buildSources sel top with
          | .error _ => (.serverError, [ev₁, ev₂])
          | .ok srcs => (.ok ans₂ srcs, [ev₁, ev₂])

/-- The chat route handler `POST /api/chat`: validation, pinned-company
lookup, retrieval cascade, context assembly, generation, verification with at
most one regeneration, response assembly; any thrown error yields the single
generic 500. -/
def runChat (env : Env) (body : ReqBody) : ChatResult × List Ev :=
  match chatRequestSchemaParse body with
  | none => (.badRequest, [])
  | some v =>
    let (sel, tr₁) := resolveSelected env v.selectedCompanySlug
    match retrieveC env v.message v.topK with
    | (.error _, tr₂) => (.serverError, tr₁ ++ tr₂)
    | (.ok top, tr₂) =>
      let (res, tr₃) := finishChat env sel v.message top
      (res, tr₁ ++ tr₂ ++ tr₃)

/-! ### The SQL function `search_similar_companies`

Model of the migration `004_create_search_function.sql` (as re-created in
`008_move_vector_extension.sql`): join the description embeddings with the
companies, keep the rows whose similarity `1 - (embedding <=> query)` exceeds
the threshold, order by the cosine distance `embedding <=> query` ascending,
take `match_count` rows, and return each with its similarity in the column
named `distance`.  PostgreSQL comparison semantics treat a float `NaN` as
greater than every number, both in `WHERE` comparisons and in `ORDER BY`. -/

/-- One row of the `company_embeddings` table. -/
structure EmbTableRow where
  company_id : String
  source : String
  vec : List ℚ
  deriving Repr, DecidableEq

/-- The two tables consulted by the SQL function. -/
structure DB where
  companies : List Company
  embeddings : List EmbTableRow
  deriving Repr

/-- Decision of `similarity > t` under PostgreSQL semantics: a `NaN`
similarity compares greater than every number. -/
def simGtPg (c : CosParts) (t : ℚ) : Bool :=
  c.isNaN || signedSq t < c.simVal

/-- The `ORDER BY embedding <=> query` comparison: ascending cosine distance
`1 - s`, i.e. descending similarity, with `NaN` ordered last (PostgreSQL
sorts `NaN` as the greatest float). -/
def sqlOrderLe (a b : Company × CosParts) : Bool :=
  if b.2.isNaN then true
  else if a.2.isNaN then false
  else decide (b.2.simVal ≤ a.2.simVal)

/-- The `ORDER BY` comparison as a relation, for the sort. -/
def sqlOrderRel (a b : Company × CosParts) : Prop := sqlOrderLe a b = true

instance : DecidableRel sqlOrderRel :=
  fun a b => inferInstanceAs (Decidable (sqlOrderLe a b = true))

instance : IsTotal (Company × CosParts) sqlOrderRel :=
  ⟨by
    intro a b
    unfold sqlOrderRel sqlOrderLe
    by_cases hb : b.2.isNaN = true
    · left; simp [hb]
    · by_cases ha : a.2.isNaN = true
      · right; simp [ha]
      · rcases le_total b.2.simVal a.2.simVal with h | h
        · left; simp [hb, ha, h]
        · right; simp [ha, hb, h]⟩

instance : IsTrans (Company × CosParts) sqlOrderRel :=
  ⟨by
    intro a b c hab hbc
    unfold sqlOrderRel sqlOrderLe at *
    by_cases hc : c.2.isNaN = true
    · simp [hc]
    · simp only [hc] at hbc ⊢
      by_cases hb : b.2.isNaN = true
      · simp [hb] at hbc
      · simp [hb] at hab hbc
        by_cases ha : a.2.isNaN = true
        · simp [ha] at hab
        · simp [ha] at hab ⊢
          exact le_trans hbc hab⟩

/-- The SQL function `search_similar_companies`. -/
def searchSimilarCompanies (db : DB) (q : List ℚ) (thr : ℚ) (k : Nat) : List RpcRow :=
  let joined := (db.embeddings.filter (fun r => r.source == "description")).filterMap
    fun r => (db.companies.find? (fun c => c.id == r.company_id)).map
      fun c => (c, cosineParts r.vec q)
  let matched := joined.filter fun p => simGtPg p.2 thr
  let ordered := matched.insertionSort sqlOrderRel
  (ordered.take k).map fun p => { company := p.1, distance := some (Dist.sim p.2) }

/-- The server-side vector RPC retrieval stage: the SQL function composed
with the mapping the route applies to its rows. -/
def rpcStage (db : DB) (q : List ℚ) (thr : ℚ) (k : Nat) : List SC :=
  (searchSimilarCompanies db q thr k).map rpcMapRow

/-! ### Helper lemmas -/

/-- Restriction of a `Proj` context entry to a citation entry; `Company.toSource`
factors through it. -/
def projToSource (p : Proj) : SourceItem :=
  { name := p.name, slug := p.slug,
    radical_primary_category := p.radical_primary_category }

theorem mapExcept_ok_of {α β : Type} (f : α → Except Unit β) :
    ∀ l : List α, (∀ a ∈ l, ∃ b, f a = .ok b) → ∃ bs, mapExcept f l = .ok bs
  | [], _ => ⟨[], rfl⟩
  | a :: as, h => by
    obtain ⟨b, hb⟩ := h a (.head as)
    obtain ⟨bs, hbs⟩ := mapExcept_ok_of f as (fun x hx => h x (.tail a hx))
    exact ⟨b :: bs, by simp [mapExcept, hb, hbs]⟩

theorem mapExcept_congr_map {α β γ : Type} (f : α → Except Unit β) (g : β → γ)
    (h : α → Except Unit γ) (hfg : ∀ a, h a = (f a).map (fun b => g b)) :
    ∀ l : List α, mapExcept h l = (mapExcept f l).map (List.map g)
  | [] => rfl
  | a :: as => by
    have ih := mapExcept_congr_map f g h hfg as
    cases hfa : f a with
    | error e =>
      have : h a = .error e := by rw [hfg, hfa]; rfl
      simp [mapExcept, hfa, this, Except.map]
    | ok b =>
      have hha : h a = .ok (g b) := by rw [hfg, hfa]; rfl
      cases hrest : mapExcept f as with
      | error e =>
        have : mapExcept h as = .error e := by rw [ih, hrest]; rfl
        simp [mapExcept, hfa, hha, hrest, this, Except.map]
      | ok bs =>
        have : mapExcept h as = .ok (bs.map g) := by rw [ih, hrest]; rfl
        simp [mapExcept, hfa, hha, hrest, this, Except.map]

theorem sourcesOf_eq (top : List SC) :
    sourcesOf top = (projectAll top).map (List.map projToSource) := by
  refine mapExcept_congr_map _ projToSource _ (fun sc => ?_) top
  cases sc.1 <;> rfl

theorem map_slug_projToSource (l : List Proj) :
    (l.map projToSource).map (fun s => s.slug) = l.map (fun p => p.slug) := by
  simp [List.map_map, projToSource, Function.comp]

theorem buildSources_eq (sel : Option Company) (top : List SC) :
    buildSources sel top = (buildPortfolio sel top).map (List.map projToSource) := by
  unfold buildSources buildPortfolio
  rw [sourcesOf_eq]
  cases hp : projectAll top with
  | error e => rfl
  | ok ps =>
    cases sel with
    | none => rfl
    | some c =>
      have hfind : ((ps.map projToSource).find? (fun s => s.slug == c.slug))
          = (ps.find? (fun p => p.slug == c.slug)).map projToSource := by
        rw [List.find?_map]; rfl
      simp only [Except.map, hfind]
      cases ps.find? (fun p => p.slug == c.slug) <;> rfl

theorem finishChat_ok_inv {env : Env} {sel : Option Company} {msg : String}
    {top : List SC} {ans : String} {srcs : List SourceItem} {tr : List Ev}
    (h : finishChat env sel msg top = (.ok ans srcs, tr)) :
    ∃ ctx a₁,
      buildPortfolio sel top = .ok ctx ∧
      buildSources sel top = .ok srcs ∧
      env.complete1 = .ok a₁ ∧
      ((violationsOf a₁ = [] ∧ ans = a₁ ∧
          tr = [Ev.completeCall systemPrompt
                  (mkUserInstruction (portfolioContextJson ctx) msg) ctx]) ∨
       (violationsOf a₁ ≠ [] ∧ env.complete2 = .ok ans ∧
          tr = [Ev.completeCall systemPrompt
                  (mkUserInstruction (portfolioContextJson ctx) msg) ctx,
                Ev.completeCall (stricterPrompt (violationsOf a₁))
                  (mkUserInstruction (portfolioContextJson ctx) msg) ctx])) := by
  unfold finishChat at h
  rcases hctx : buildPortfolio sel top with e | ctx <;> simp only [hctx] at h
  · exact absurd h (by simp)
  rcases ha₁ : env.complete1 with e | a₁ <;> simp only [ha₁] at h
  · exact absurd h (by simp)
  rcases hviol : violationsOf a₁ with _ | ⟨t, ts⟩ <;> simp only [hviol] at h
  · simp only [List.isEmpty_nil, if_true] at h
    rcases hsrcs : buildSources sel top with e | srcs' <;> simp only [hsrcs] at h
    · exact absurd h (by simp)
    simp only [Prod.mk.injEq, ChatResult.ok.injEq] at h
    obtain ⟨⟨hans, hsr⟩, htr⟩ := h
    subst hans; subst hsr; subst htr
    exact ⟨ctx, a₁, rfl, rfl, rfl, .inl ⟨hviol, rfl, rfl⟩⟩
  · simp only [List.isEmpty_cons, Bool.false_eq_true, if_false] at h
    rcases ha₂ : env.complete2 with e | a₂ <;> simp only [ha₂] at h
    · exact absurd h (by simp)
    rcases hsrcs : buildSources sel top with e | srcs' <;> simp only [hsrcs] at h
    · exact absurd h (by simp)
    simp only [Prod.mk.injEq, ChatResult.ok.injEq] at h
    obtain ⟨⟨hans, hsr⟩, htr⟩ := h
    subst hans; subst hsr; subst htr
    exact ⟨ctx, a₁, rfl, rfl, rfl, .inr ⟨by simp [hviol], rfl, by rw [hviol]⟩⟩

theorem runChat_ok_inv {env : Env} {body : ReqBody} {ans : String}
    {srcs : List SourceItem} {tr : List Ev}
    (h : runChat env body = (.ok ans srcs, tr)) :
    ∃ v sel tr₁ top tr₂ tr₃,
      chatRequestSchemaParse body = some v ∧
      resolveSelected env v.selectedCompanySlug = (sel, tr₁) ∧
      retrieveC env v.message v.topK = (.ok top, tr₂) ∧
      finishChat env sel v.message top = (.ok ans srcs, tr₃) ∧
      tr = tr₁ ++ tr₂ ++ tr₃ := by
  unfold runChat at h
  rcases hv : chatRequestSchemaParse body with _ | v <;> simp only [hv] at h
  · exact absurd h (by simp)
  rcases hres : resolveSelected env v.selectedCompanySlug with ⟨sel, tr₁⟩
  simp only [hres] at h
  rcases hret : retrieveC env v.message v.topK with ⟨r, tr₂⟩
  rcases r with e | top <;> simp only [hret] at h
  · exact absurd h (by simp)
  rcases hfin : finishChat env sel v.message top with ⟨res, tr₃⟩
  simp only [hfin] at h
  simp only [Prod.mk.injEq] at h
  obtain ⟨h₁, h₂⟩ := h
  exact ⟨v, sel, tr₁, top, tr₂, tr₃, rfl, hres, hret, by rw [hfin, h₁], h₂.symm⟩

/-- Whether a trace event belongs to the vector-search machinery: the
embedding provider call, the similarity RPC, or the embedding-row fetches of
the client-side path. -/
def Ev.isVectorWork : Ev → Bool
  | .embedCall _ => true
  | .rpcCall _ _ => true
  | .fetchEmbRows => true
  | .fetchByIds _ => true
  | _ => false

theorem resolveSelected_no_complete (env : Env) (slug : Option String) :
    ((resolveSelected env slug).2.all fun ev => !ev.isComplete) = true := by
  unfold resolveSelected
  repeat' split
  all_goals rfl

theorem resolveSelected_no_vector (env : Env) (slug : Option String) :
    ((resolveSelected env slug).2.all fun ev => !ev.isVectorWork) = true := by
  unfold resolveSelected
  repeat' split
  all_goals rfl

theorem branchA_no_complete (env : Env) (msg : String) (k : Nat) :
    (((branchA env msg k).2).all fun ev => !ev.isComplete) = true := by
  unfold branchA
  rcases tokensLonger 2 msg with _ | ⟨t, ts⟩
  · rfl
  · repeat' split
    all_goals rfl

theorem branchA_no_vector (env : Env) (msg : String) (k : Nat) :
    (((branchA env msg k).2).all fun ev => !ev.isVectorWork) = true := by
  unfold branchA
  rcases tokensLonger 2 msg with _ | ⟨t, ts⟩
  · rfl
  · repeat' split
    all_goals rfl

theorem clientPath_no_complete (env : Env) (q : List ℚ) (k : Nat) :
    (((clientPath env q k).2).all fun ev => !ev.isComplete) = true := by
  unfold clientPath
  repeat' split
  all_goals rfl

theorem vecStage_no_complete (env : Env) (q : List ℚ) (k : Nat) :
    (((vecStage env q k).2).all fun ev => !ev.isComplete) = true := by
  unfold vecStage
  split
  · rcases hcp : clientPath env q k with ⟨r, tr⟩
    have hcl := clientPath_no_complete env q k
    rw [hcp] at hcl
    simp only [hcp, List.all_cons, Bool.and_eq_true]
    exact ⟨rfl, hcl⟩
  · repeat' split
    all_goals rfl

theorem keywordFallback_no_complete (env : Env) (msg : String) (k : Nat) :
    (((keywordFallback env msg k).2).all fun ev => !ev.isComplete) = true := by
  unfold keywordFallback
  rcases tokensLonger 3 msg with _ | ⟨t, ts⟩
  · rfl
  · repeat' split
    all_goals rfl

theorem keywordFallback_no_vector (env : Env) (msg : String) (k : Nat) :
    (((keywordFallback env msg k).2).all fun ev => !ev.isVectorWork) = true := by
  unfold keywordFallback
  rcases tokensLonger 3 msg with _ | ⟨t, ts⟩
  · rfl
  · repeat' split
    all_goals rfl

theorem blindFallback_no_complete (env : Env) :
    (((blindFallback env).2).all fun ev => !ev.isComplete) = true := by
  unfold blindFallback
  repeat' split
  all_goals rfl

theorem blindFallback_no_vector (env : Env) :
    (((blindFallback env).2).all fun ev => !ev.isVectorWork) = true := by
  unfold blindFallback
  repeat' split
  all_goals rfl

theorem branchB_no_complete (env : Env) (msg : String) (k : Nat) :
    (((branchB env msg k).2).all fun ev => !ev.isComplete) = true := by
  unfold branchB
  rcases hgen : env.genEmbedding with e | q
  · rfl
  · rcases hvs : vecStage env q k with ⟨r, tr⟩
    have hv := vecStage_no_complete env q k
    rw [hvs] at hv
    simp only [hvs]
    rcases r with e | top
    · simp only [List.all_cons, Bool.and_eq_true]
      exact ⟨rfl, hv⟩
    · rcases hkw : keywordFallback env msg k with ⟨top₂, tr₂⟩
      have hk := keywordFallback_no_complete env msg k
      rw [hkw] at hk
      rcases hbl : blindFallback env with ⟨top₃, tr₃⟩
      have hb := blindFallback_no_complete env
      rw [hbl] at hb
      simp only [hkw, hbl]
      by_cases ht : top.isEmpty <;> by_cases ht₂ : top₂.isEmpty <;>
        simp_all [List.all_append, List.all_cons, Ev.isComplete]

theorem retrieveC_no_complete (env : Env) (msg : String) (k : Nat) :
    (((retrieveC env msg k).2).all fun ev => !ev.isComplete) = true := by
  unfold retrieveC
  rcases env.embeddingCount with _ | n
  · rcases hba : branchA env msg k with ⟨top, tr⟩
    have hb := branchA_no_complete env msg k
    rw [hba] at hb
    simp only [hba, List.all_cons, Bool.and_eq_true]
    exact ⟨rfl, hb⟩
  · rcases n with _ | m
    · rcases hba : branchA env msg k with ⟨top, tr⟩
      have hb := branchA_no_complete env msg k
      rw [hba] at hb
      simp only [hba, List.all_cons, Bool.and_eq_true]
      exact ⟨rfl, hb⟩
    · rcases hbb : branchB env msg k with ⟨r, tr⟩
      have hb := branchB_no_complete env msg k
      rw [hbb] at hb
      simp only [hbb, List.all_cons, Bool.and_eq_true]
      exact ⟨rfl, hb⟩

theorem finishChat_no_vector (env : Env) (sel : Option Company) (msg : String)
    (top : List SC) :
    (((finishChat env sel msg top).2).all fun ev => !ev.isVectorWork) = true := by
  unfold finishChat
  repeat' split
  all_goals first
    | rfl
    | (dsimp only []; split <;> rfl)

theorem retrieveC_zero_no_vector (env : Env) (msg : String) (k : Nat)
    (h : env.embeddingCount = none ∨ env.embeddingCount = some 0) :
    (((retrieveC env msg k).2).all fun ev => !ev.isVectorWork) = true := by
  unfold retrieveC
  rcases h with h | h <;> rw [h] <;>
    (rcases hba : branchA env msg k with ⟨top, tr⟩
     have hb := branchA_no_vector env msg k
     rw [hba] at hb
     simp only [hba, List.all_cons, Bool.and_eq_true]
     exact ⟨rfl, hb⟩)

theorem branchA_keyword_event (env : Env) (msg : String) (k : Nat) (t : String)
    (ts : List String) (h : tokensLonger 2 msg = t :: ts) :
    Ev.keywordACall t (k * 2) ∈ (branchA env msg k).2 := by
  unfold branchA
  rw [h]
  rcases env.keywordA with _ | ks
  · simp
  · by_cases hl : ks.length > 0 <;> simp [hl]

theorem retrieveC_zero_keyword_event (env : Env) (msg : String) (k : Nat)
    (t : String) (ts : List String)
    (hc : env.embeddingCount = none ∨ env.embeddingCount = some 0)
    (h : tokensLonger 2 msg = t :: ts) :
    Ev.keywordACall t (k * 2) ∈ (retrieveC env msg k).2 := by
  have hmem := branchA_keyword_event env msg k t ts h
  unfold retrieveC
  rcases hc with hc | hc <;> rw [hc] <;>
    (rcases hba : branchA env msg k with ⟨top, tr⟩
     rw [hba] at hmem
     simp only [hba]
     exact List.mem_cons_of_mem _ hmem)

theorem runChat_of_parse_none {env : Env} {body : ReqBody}
    (h : chatRequestSchemaParse body = none) :
    runChat env body = (.badRequest, []) := by
  unfold runChat
  rw [h]

/-! ### Concrete data for witnesses and counterexamples -/

/-- A concrete company. -/
def acme : Company :=
  ⟨"1", "Acme", "acme", some "AI", [], none, none, none, [], none⟩

/-- A second concrete company. -/
def betaCo : Company :=
  ⟨"2", "Beta", "beta", none, [], none, none, none, [], none⟩

/-- A benign environment: every store call succeeds and both completions are
clean. -/
def envBase : Env :=
  { companyBySlug := fun s => if s == "acme" then some acme else none
    embeddingCount := some 3
    keywordA := some [acme]
    genEmbedding := .ok [1, 0]
    rpc := ⟨some [⟨betaCo, some (.rat (3/10))⟩], false⟩
    embRows := ⟨some [⟨"1", .arr [1, 0]⟩], false⟩
    companiesByIds := some [acme]
    keywordB := ⟨some [acme], false⟩
    allCompanies := ⟨some [acme, betaCo], false⟩
    complete1 := .ok "some answer"
    complete2 := .ok "another answer" }

/-! ### Claims -/

/-- C3 counterexample: the claim says an out-of-range `topK` is clamped into
range instead of rejected, so the request is not answered 400 on account of
`topK` alone; in fact `topK = 0` with a perfectly valid message fails
validation and the request is answered 400. -/
theorem C3_counterexample :
    chatRequestSchemaParse ⟨some "test", none, some 0⟩ = none ∧
    runChat envBase ⟨some "test", none, some 0⟩ = (.badRequest, []) := by
  constructor <;> decide

/-- C3 (amended): a `topK` that is non-integral, below 1 or above 10
(including 0 and negatives) is rejected by validation — not clamped — and the
request is answered 400 with no store call made, so a zero-or-negative count
indeed never reaches the store layer; an absent `topK` defaults to 5. -/
theorem C3_topK_rejected_not_clamped :
    (∀ (b : ReqBody) (q : ℚ), b.topK = some q → (q < 1 ∨ 10 < q ∨ q.den ≠ 1) →
      chatRequestSchemaParse b = none ∧
      ∀ env : Env, runChat env b = (.badRequest, [])) ∧
    (∀ (b : ReqBody) (m : String), b.message = some m → m.length ≠ 0 →
      b.topK = none →
      ∃ v, chatRequestSchemaParse b = some v ∧ v.topK = 5 ∧ v.message = m) := by
  constructor
  · intro b q hq hout
    have hparse : chatRequestSchemaParse b = none := by
      unfold chatRequestSchemaParse
      rcases b.message with _ | m
      · rfl
      · dsimp only
        by_cases hm : m.length = 0
        · rw [if_pos hm]
        · rw [if_neg hm, hq]
          dsimp only
          rw [if_neg]
          rintro ⟨h1, h2, h3⟩
          rcases hout with h | h | h
          · exact absurd h2 (not_le.mpr h)
          · exact absurd h3 (not_le.mpr h)
          · exact h h1
    exact ⟨hparse, fun env => runChat_of_parse_none hparse⟩
  · intro b m hm hlen ht
    have hparse : chatRequestSchemaParse b =
        some ⟨m,
          (match b.selectedCompanySlug with
           | some (some s) => some s
           | _ => none), 5⟩ := by
      unfold chatRequestSchemaParse
      rw [hm]
      dsimp only
      rw [if_neg hlen, ht]
    exact ⟨_, hparse, rfl, rfl⟩

/-- C3 witness: the amended claim applied at `topK = 0` (rejected, 400) and
at an absent `topK` (defaulted to 5). -/
theorem C3_topK_rejected_not_clamped_witness :
    chatRequestSchemaParse ⟨some "hi", none, some 0⟩ = none ∧
    runChat envBase ⟨some "hi", none, some 0⟩ = (.badRequest, []) ∧
    ∃ v, chatRequestSchemaParse ⟨some "hi", none, none⟩ = some v ∧
      v.topK = 5 ∧ v.message = "hi" :=
  ⟨(C3_topK_rejected_not_clamped.1 ⟨some "hi", none, some 0⟩ 0 rfl
      (.inl (by decide))).1,
   (C3_topK_rejected_not_clamped.1 ⟨some "hi", none, some 0⟩ 0 rfl
      (.inl (by decide))).2 envBase,
   C3_topK_rejected_not_clamped.2 ⟨some "hi", none, none⟩ "hi" rfl
      (by decide) rfl⟩

/-- C4: when the embedding count probe reports zero rows (or null), the whole
request makes no vector-search call at all — in particular the embedding
provider is never invoked — and when the lower-cased message has a token
longer than two characters, retrieval goes straight to the keyword search on
the first such token with limit `topK * 2`. -/
theorem C4_no_embeddings_short_circuit :
    ∀ (env : Env) (body : ReqBody) (v : ValidReq) (res : ChatResult)
      (tr : List Ev),
      chatRequestSchemaParse body = some v →
      (env.embeddingCount = none ∨ env.embeddingCount = some 0) →
      runChat env body = (res, tr) →
      ((tr.all fun ev => !ev.isVectorWork) = true ∧
       ∀ t ts, tokensLonger 2 v.message = t :: ts →
         Ev.keywordACall t (v.topK * 2) ∈ tr) := by
  intro env body v res tr hv hc hrun
  unfold runChat at hrun
  simp only [hv] at hrun
  rcases hres : resolveSelected env v.selectedCompanySlug with ⟨sel, tr₁⟩
  simp only [hres] at hrun
  have h₁ := resolveSelected_no_vector env v.selectedCompanySlug
  rw [hres] at h₁
  have h₂ := retrieveC_zero_no_vector env v.message v.topK hc
  rcases hret : retrieveC env v.message v.topK with ⟨r, tr₂⟩
  rw [hret] at h₂
  have hkwev := fun t ts ht =>
    retrieveC_zero_keyword_event env v.message v.topK t ts hc ht
  rcases r with e | top <;> simp only [hret] at hrun
  · simp only [Prod.mk.injEq] at hrun
    obtain ⟨_, htr⟩ := hrun
    subst htr
    constructor
    · simp only [List.all_append, Bool.and_eq_true]
      exact ⟨h₁, h₂⟩
    · intro t ts ht
      have := hkwev t ts ht
      rw [hret] at this
      exact List.mem_append_right _ this
  · rcases hfin : finishChat env sel v.message top with ⟨res', tr₃⟩
    simp only [hfin] at hrun
    have h₃ := finishChat_no_vector env sel v.message top
    rw [hfin] at h₃
    simp only [Prod.mk.injEq] at hrun
    obtain ⟨_, htr⟩ := hrun
    subst htr
    constructor
    · simp only [List.all_append, Bool.and_eq_true]
      exact ⟨⟨h₁, h₂⟩, h₃⟩
    · intro t ts ht
      have := hkwev t ts ht
      rw [hret] at this
      exact List.mem_append_left _ (List.mem_append_right _ this)

/-- C4 witness: a concrete request against an empty embedding store; the
trace contains the keyword call on token "there" and no vector work. -/
theorem C4_no_embeddings_short_circuit_witness :
    ((((runChat { envBase with embeddingCount := some 0 }
        ⟨some "Hi there", none, none⟩).2).all fun ev => !ev.isVectorWork) = true ∧
     ∀ t ts, tokensLonger 2 "Hi there" = t :: ts →
       Ev.keywordACall t (5 * 2) ∈
         (runChat { envBase with embeddingCount := some 0 }
           ⟨some "Hi there", none, none⟩).2) :=
  C4_no_embeddings_short_circuit { envBase with embeddingCount := some 0 }
    ⟨some "Hi there", none, none⟩ ⟨"Hi there", none, 5⟩ _ _
    (by decide) (.inr rfl) rfl

/-- C6: when the embedding store is non-empty and the embedding provider call
fails, the request terminates with the generic 500 — no answer, no sources —
and the trace stops right after the failed call: no keyword search, no RPC,
no fallback store call, no completion call is ever made. -/
theorem C6_embedding_failure_hard_error :
    ∀ (env : Env) (body : ReqBody) (v : ValidReq) (n : Nat) (e : Unit),
      chatRequestSchemaParse body = some v →
      env.embeddingCount = some (n + 1) →
      env.genEmbedding = .error e →
      runChat env body =
        (.serverError,
          (resolveSelected env v.selectedCompanySlug).2 ++
            [Ev.countProbe, Ev.embedCall v.message]) := by
  intro env body v n e hv hc hg
  have hret : retrieveC env v.message v.topK =
      (.error (), [Ev.countProbe, Ev.embedCall v.message]) := by
    unfold retrieveC branchB
    rw [hc, hg]
  unfold runChat
  simp only [hv]
  rcases hres : resolveSelected env v.selectedCompanySlug with ⟨sel, tr₁⟩
  simp only [hres, hret]

/-- C6 witness: the theorem applied to a concrete failing environment. -/
theorem C6_embedding_failure_hard_error_witness :
    runChat { envBase with genEmbedding := .error () } ⟨some "hi", none, none⟩ =
      (.serverError,
        (resolveSelected { envBase with genEmbedding := .error () } none).2 ++
          [Ev.countProbe, Ev.embedCall "hi"]) :=
  C6_embedding_failure_hard_error _ _ ⟨"hi", none, 5⟩ 2 () (by decide) rfl rfl

theorem countP_zero_of_all_not {α : Type} {l : List α} {p : α → Bool}
    (h : (l.all fun a => !p a) = true) : l.countP p = 0 := by
  rw [List.countP_eq_zero]
  intro a ha
  have := (List.all_eq_true.mp h) a ha
  simpa using this

theorem filter_nil_of_all_not {α : Type} {l : List α} {p : α → Bool}
    (h : (l.all fun a => !p a) = true) : l.filter p = [] := by
  rw [List.filter_eq_nil_iff]
  intro a ha
  have := (List.all_eq_true.mp h) a ha
  simpa using this

theorem finishChat_complete_le_two (env : Env) (sel : Option Company)
    (msg : String) (top : List SC) :
    ((finishChat env sel msg top).2).countP Ev.isComplete ≤ 2 := by
  have hlen : ((finishChat env sel msg top).2).length ≤ 2 := by
    unfold finishChat
    repeat' (first | split | dsimp only)
    all_goals simp
  exact le_trans (List.countP_le_length _) hlen

/-- C9: the Completion Provider is called at most twice for answer
generation in any request; when the first answer is clean exactly one call is
made and that answer is returned; when the first answer contains forbidden
terms (case-insensitive substring scan of the deny-list), exactly one
regeneration call is made, its system instruction is the augmented one naming
exactly the violating terms, and whatever it returns is the answer — the
original is discarded even if the regeneration still violates. -/
theorem C9_bounded_regeneration :
    (∀ (env : Env) (body : ReqBody) (res : ChatResult) (tr : List Ev),
        runChat env body = (res, tr) → tr.countP Ev.isComplete ≤ 2) ∧
    (∀ (env : Env) (body : ReqBody) (ans : String) (srcs : List SourceItem)
        (tr : List Ev) (a₁ : String),
        env.complete1 = .ok a₁ →
        runChat env body = (.ok ans srcs, tr) →
        ((violationsOf a₁ = [] → ans = a₁ ∧ tr.countP Ev.isComplete = 1) ∧
         (violationsOf a₁ ≠ [] →
            env.complete2 = .ok ans ∧ tr.countP Ev.isComplete = 2 ∧
            ∃ ctx usr, tr.filter Ev.isComplete =
              [Ev.completeCall systemPrompt usr ctx,
               Ev.completeCall (stricterPrompt (violationsOf a₁)) usr ctx]))) := by
  constructor
  · intro env body res tr hrun
    unfold runChat at hrun
    rcases hv : chatRequestSchemaParse body with _ | v <;> simp only [hv] at hrun
    · simp only [Prod.mk.injEq] at hrun
      obtain ⟨-, htr⟩ := hrun
      rw [← htr]
      decide
    · rcases hres : resolveSelected env v.selectedCompanySlug with ⟨sel, tr₁⟩
      simp only [hres] at hrun
      have c₁ : tr₁.countP Ev.isComplete = 0 := by
        have := resolveSelected_no_complete env v.selectedCompanySlug
        rw [hres] at this
        exact countP_zero_of_all_not this
      rcases hret : retrieveC env v.message v.topK with ⟨r, tr₂⟩
      have c₂ : tr₂.countP Ev.isComplete = 0 := by
        have := retrieveC_no_complete env v.message v.topK
        rw [hret] at this
        exact countP_zero_of_all_not this
      rcases r with e | top <;> simp only [hret] at hrun
      · simp only [Prod.mk.injEq] at hrun
        obtain ⟨-, htr⟩ := hrun
        rw [← htr, List.countP_append, c₁, c₂]
        decide
      · rcases hfin : finishChat env sel v.message top with ⟨res', tr₃⟩
        simp only [hfin] at hrun
        simp only [Prod.mk.injEq] at hrun
        obtain ⟨-, htr⟩ := hrun
        have c₃ := finishChat_complete_le_two env sel v.message top
        rw [hfin] at c₃
        rw [← htr, List.countP_append, List.countP_append, c₁, c₂]
        simpa using c₃
  · intro env body ans srcs tr a₁ ha₁ hrun
    obtain ⟨v, sel, tr₁, top, tr₂, tr₃, hv, hres, hret, hfin, htr⟩ :=
      runChat_ok_inv hrun
    obtain ⟨ctx, a₁', hctx, hsrcs, ha₁', hcase⟩ := finishChat_ok_inv hfin
    have haeq : a₁' = a₁ := by
      have h2 := ha₁.symm.trans ha₁'
      injection h2 with h3
      exact h3.symm
    subst haeq
    have c₁ : tr₁.countP Ev.isComplete = 0 := by
      have := resolveSelected_no_complete env v.selectedCompanySlug
      rw [hres] at this
      exact countP_zero_of_all_not this
    have c₂ : tr₂.countP Ev.isComplete = 0 := by
      have := retrieveC_no_complete env v.message v.topK
      rw [hret] at this
      exact countP_zero_of_all_not this
    have f₁ : tr₁.filter Ev.isComplete = [] := by
      have := resolveSelected_no_complete env v.selectedCompanySlug
      rw [hres] at this
      exact filter_nil_of_all_not this
    have f₂ : tr₂.filter Ev.isComplete = [] := by
      have := retrieveC_no_complete env v.message v.topK
      rw [hret] at this
      exact filter_nil_of_all_not this
    constructor
    · intro hclean
      rcases hcase with ⟨-, hans, htr₃⟩ | ⟨hne, -, -⟩
      · subst htr₃
        subst htr
        refine ⟨hans, ?_⟩
        rw [List.countP_append, List.countP_append, c₁, c₂]
        rfl
      · exact absurd hclean hne
    · intro hviol
      rcases hcase with ⟨hclean, -, -⟩ | ⟨-, hc₂, htr₃⟩
      · exact absurd hclean hviol
      · subst htr₃
        subst htr
        refine ⟨hc₂, ?_, ctx,
          mkUserInstruction (portfolioContextJson ctx) v.message, ?_⟩
        · rw [List.countP_append, List.countP_append, c₁, c₂]
          rfl
        · rw [List.filter_append, List.filter_append, f₁, f₂]
          rfl

/-- C9 witness: in an environment whose first completion mentions NVIDIA and
Google, the returned answer is the regenerated one, exactly two completion
calls appear in the trace, and the second carries the augmented instruction
naming the two violating terms. -/
theorem C9_bounded_regeneration_witness :
    ((violationsOf "I like NVIDIA and Google" = [] →
        "clean regenerated text" = "I like NVIDIA and Google" ∧
        ((runChat { envBase with complete1 := .ok "I like NVIDIA and Google",
                                 complete2 := .ok "clean regenerated text" }
            ⟨some "hi", none, none⟩).2).countP Ev.isComplete = 1) ∧
     (violationsOf "I like NVIDIA and Google" ≠ [] →
        ({ envBase with complete1 := .ok "I like NVIDIA and Google",
                        complete2 := .ok "clean regenerated text" } : Env).complete2 =
            .ok "clean regenerated text" ∧
        ((runChat { envBase with complete1 := .ok "I like NVIDIA and Google",
                                 complete2 := .ok "clean regenerated text" }
            ⟨some "hi", none, none⟩).2).countP Ev.isComplete = 2 ∧
        ∃ ctx usr,
          ((runChat { envBase with complete1 := .ok "I like NVIDIA and Google",
                                   complete2 := .ok "clean regenerated text" }
              ⟨some "hi", none, none⟩).2).filter Ev.isComplete =
            [Ev.completeCall systemPrompt usr ctx,
             Ev.completeCall
               (stricterPrompt (violationsOf "I like NVIDIA and Google")) usr ctx])) :=
  C9_bounded_regeneration.2
    { envBase with complete1 := .ok "I like NVIDIA and Google",
                   complete2 := .ok "clean regenerated text" }
    ⟨some "hi", none, none⟩ "clean regenerated text" [betaCo.toSource] _
    "I like NVIDIA and Google" rfl rfl

/-- C1: every slug cited in a 200 response also occurs among the slugs of the
portfolio context carried by every completion call of that request (both
generation calls carry the same context); no citation names a company absent
from that context. -/
theorem C1_citation_grounding :
    ∀ (env : Env) (body : ReqBody) (ans : String) (srcs : List SourceItem)
      (tr : List Ev) (sys usr : String) (ctx : List Proj),
      runChat env body = (.ok ans srcs, tr) →
      Ev.completeCall sys usr ctx ∈ tr →
      ∀ s ∈ srcs, s.slug ∈ ctx.map (fun p => p.slug) := by
  intro env body ans srcs tr sys usr ctx hrun hmem
  obtain ⟨v, sel, tr₁, top, tr₂, tr₃, hv, hres, hret, hfin, htr⟩ :=
    runChat_ok_inv hrun
  obtain ⟨ctx₀, a₁, hctx, hsrcs, ha₁, hcase⟩ := finishChat_ok_inv hfin
  subst htr
  have hmem₃ : Ev.completeCall sys usr ctx ∈ tr₃ := by
    rcases List.mem_append.mp hmem with h | h
    · rcases List.mem_append.mp h with h' | h'
      · exfalso
        have hall := resolveSelected_no_complete env v.selectedCompanySlug
        rw [hres] at hall
        have := List.all_eq_true.mp hall _ h'
        simp [Ev.isComplete] at this
      · exfalso
        have hall := retrieveC_no_complete env v.message v.topK
        rw [hret] at hall
        have := List.all_eq_true.mp hall _ h'
        simp [Ev.isComplete] at this
    · exact h
  have hctxeq : ctx = ctx₀ := by
    rcases hcase with ⟨-, -, htr₃⟩ | ⟨-, -, htr₃⟩ <;> subst htr₃ <;>
      simp only [List.mem_cons, List.not_mem_nil, or_false,
        Ev.completeCall.injEq] at hmem₃
    · exact hmem₃.2.2
    · rcases hmem₃ with ⟨-, -, h⟩ | ⟨-, -, h⟩ <;> exact h
  subst hctxeq
  have hsrcs' : srcs = ctx.map projToSource := by
    have h := buildSources_eq sel top
    rw [hctx, hsrcs] at h
    simpa [Except.map] using h
  subst hsrcs'
  intro s hs
  obtain ⟨p, hp, hps⟩ := List.mem_map.mp hs
  exact List.mem_map.mpr ⟨p, hp, by rw [← hps]; rfl⟩

set_option maxRecDepth 4000 in
/-- C1 witness: applied to a concrete 200 request whose context is the single
company beta; the citation slug "beta" occurs in the context slugs. -/
theorem C1_citation_grounding_witness :
    (betaCo.toSource).slug ∈ [betaCo.toProj].map (fun p => p.slug) :=
  C1_citation_grounding envBase ⟨some "hi", none, none⟩ "some answer"
    [betaCo.toSource] _ systemPrompt
    (mkUserInstruction (portfolioContextJson [betaCo.toProj]) "hi")
    [betaCo.toProj] rfl (by decide) betaCo.toSource (by decide)

/-- An environment in which the pinned company acme is also surfaced by
retrieval itself, in second position. -/
def envC2 : Env :=
  { envBase with
    rpc := ⟨some [⟨betaCo, some (.rat (3/10))⟩, ⟨acme, some (.rat (1/5))⟩], false⟩ }

/-- C2 counterexample: with `selectedCompanySlug` resolving to acme and
retrieval independently returning acme in second position, the 200 response
cites acme exactly once but NOT first — the code only prepends the pinned
company when its slug is absent, and never moves it to the front. -/
theorem C2_counterexample :
    (resolveSelected envC2 (some "acme")).1 = some acme ∧
    (runChat envC2 ⟨some "hi", some (some "acme"), none⟩).1 =
      .ok "some answer" [betaCo.toSource, acme.toSource] ∧
    [betaCo.toSource, acme.toSource].head? ≠ some acme.toSource ∧
    ([betaCo.toSource, acme.toSource].map (fun s => s.slug)).count "acme" = 1 := by
  refine ⟨by decide, by decide, by decide, by decide⟩

theorem find_slug_isSome (base : List SourceItem) (c : Company) :
    ((base.find? (fun s => s.slug == c.slug)).isSome = true) ↔
      c.slug ∈ base.map (fun s => s.slug) := by
  rw [List.find?_isSome]
  constructor
  · rintro ⟨x, hx, hps⟩
    exact List.mem_map.mpr ⟨x, hx, (eq_of_beq hps).symm ▸ rfl⟩
  · intro h
    obtain ⟨x, hx, hxs⟩ := List.mem_map.mp h
    exact ⟨x, hx, by simp [hxs]⟩

/-- C2 (amended): when the pinned company resolves, it always appears in the
citation list and in the context list, and is de-duplicated by slug: if its
slug is absent from the retrieved candidates it is prepended and is first;
if retrieval already surfaced it, the lists are exactly the projections of
the retrieved candidates — no copy is prepended, but the company also keeps
its retrieved position rather than being moved to the front.  Its slug occurs
exactly once provided the retrieved candidates carry it at most once, and the
context passed to the completion provider lists the same slugs in the same
order as the citations. -/
theorem C2_pinned_dedup :
    ∀ (env : Env) (body : ReqBody) (v : ValidReq) (c : Company) (ans : String)
      (srcs : List SourceItem) (tr : List Ev) (top : List SC) (tr₂ : List Ev)
      (base : List SourceItem),
      chatRequestSchemaParse body = some v →
      (resolveSelected env v.selectedCompanySlug).1 = some c →
      retrieveC env v.message v.topK = (.ok top, tr₂) →
      sourcesOf top = .ok base →
      runChat env body = (.ok ans srcs, tr) →
      ((c.slug ∈ base.map (fun s => s.slug) → srcs = base) ∧
       (c.slug ∉ base.map (fun s => s.slug) →
          srcs = c.toSource :: base ∧ srcs.head? = some c.toSource) ∧
       ((base.map (fun s => s.slug)).count c.slug ≤ 1 →
          (srcs.map (fun s => s.slug)).count c.slug = 1) ∧
       (∀ sys usr ctx, Ev.completeCall sys usr ctx ∈ tr →
          ctx.map (fun p => p.slug) = srcs.map (fun s => s.slug))) := by
  intro env body v c ans srcs tr top tr₂ base hv hsel hret hbase hrun
  obtain ⟨v', sel, tr₁, top', tr₂', tr₃, hv', hres, hret', hfin, htr⟩ :=
    runChat_ok_inv hrun
  rw [hv] at hv'
  injection hv' with hvv
  subst hvv
  rw [hret] at hret'
  simp only [Prod.mk.injEq, Except.ok.injEq] at hret'
  obtain ⟨htop, htr₂⟩ := hret'
  subst htop
  subst htr₂
  have hselc : sel = some c := by
    rw [hres] at hsel
    exact hsel
  subst hselc
  obtain ⟨ctx₀, a₁, hctx, hsrcs, ha₁, hcase⟩ := finishChat_ok_inv hfin
  have hbs : buildSources (some c) top =
      .ok (if (base.find? (fun s => s.slug == c.slug)).isSome then base
           else c.toSource :: base) := by
    unfold buildSources
    rw [hbase]
    rfl
  rw [hbs] at hsrcs
  injection hsrcs with hsrcs
  refine ⟨?_, ?_, ?_, ?_⟩
  · intro hmem
    rw [← hsrcs, if_pos ((find_slug_isSome base c).mpr hmem)]
  · intro hnot
    have hfind : ¬ ((base.find? (fun s => s.slug == c.slug)).isSome = true) :=
      fun h => hnot ((find_slug_isSome base c).mp h)
    rw [← hsrcs, if_neg hfind]
    exact ⟨rfl, rfl⟩
  · intro hle
    by_cases hmem : c.slug ∈ base.map (fun s => s.slug)
    · rw [← hsrcs, if_pos ((find_slug_isSome base c).mpr hmem)]
      have h0 : (base.map (fun s => s.slug)).count c.slug ≠ 0 :=
        fun h => (List.count_eq_zero.mp h) hmem
      exact Nat.le_antisymm hle (Nat.one_le_iff_ne_zero.mpr h0)
    · have hfind : ¬ ((base.find? (fun s => s.slug == c.slug)).isSome = true) :=
        fun h => hmem ((find_slug_isSome base c).mp h)
      rw [← hsrcs, if_neg hfind]
      have h0 : (base.map (fun s => s.slug)).count c.slug = 0 :=
        List.count_eq_zero.mpr hmem
      simp only [List.map_cons]
      have hcs : (c.toSource).slug = c.slug := rfl
      rw [hcs, List.count_cons_self, h0]
  · intro sys usr ctx hmemev
    subst htr
    have hmem₃ : Ev.completeCall sys usr ctx ∈ tr₃ := by
      rcases List.mem_append.mp hmemev with h | h
      · rcases List.mem_append.mp h with h' | h'
        · exfalso
          have hall := resolveSelected_no_complete env v.selectedCompanySlug
          rw [hres] at hall
          have := List.all_eq_true.mp hall _ h'
          simp [Ev.isComplete] at this
        · exfalso
          have hall := retrieveC_no_complete env v.message v.topK
          rw [hret] at hall
          have := List.all_eq_true.mp hall _ h'
          simp [Ev.isComplete] at this
      · exact h
    have hctxeq : ctx = ctx₀ := by
      rcases hcase with ⟨-, -, htr₃⟩ | ⟨-, -, htr₃⟩ <;> subst htr₃ <;>
        simp only [List.mem_cons, List.not_mem_nil, or_false,
          Ev.completeCall.injEq] at hmem₃
      · exact hmem₃.2.2
      · rcases hmem₃ with ⟨-, -, h⟩ | ⟨-, -, h⟩ <;> exact h
    subst hctxeq
    have hsrcs₂ : srcs = ctx.map projToSource := by
      have h := buildSources_eq (some c) top
      rw [hctx, hbs] at h
      have h2 := (Except.ok.injEq _ _).mp h.symm
      rw [← hsrcs]
      exact h2.symm
    rw [hsrcs₂, map_slug_projToSource]

/-- C2 witness: the amended claim applied to the counterexample environment —
acme was retrieved in second position, so the citations equal the retrieved
projections and carry the slug exactly once. -/
theorem C2_pinned_dedup_witness :
    (("acme" ∈ ([betaCo.toSource, acme.toSource].map (fun s => s.slug)) →
      [betaCo.toSource, acme.toSource] = [betaCo.toSource, acme.toSource]) ∧
     ("acme" ∉ ([betaCo.toSource, acme.toSource].map (fun s => s.slug)) →
      [betaCo.toSource, acme.toSource] =
        acme.toSource :: [betaCo.toSource, acme.toSource] ∧
      [betaCo.toSource, acme.toSource].head? = some acme.toSource) ∧
     ((([betaCo.toSource, acme.toSource].map (fun s => s.slug)).count "acme" ≤ 1 →
      (([betaCo.toSource, acme.toSource].map (fun s => s.slug)).count "acme" = 1)) ∧
     (∀ sys usr ctx,
        Ev.completeCall sys usr ctx ∈
          (runChat envC2 ⟨some "hi", some (some "acme"), none⟩).2 →
        ctx.map (fun p => p.slug) =
          [betaCo.toSource, acme.toSource].map (fun s => s.slug)))) :=
  C2_pinned_dedup envC2 ⟨some "hi", some (some "acme"), none⟩
    ⟨"hi", some "acme", 5⟩ acme "some answer"
    [betaCo.toSource, acme.toSource] _
    [(some betaCo, .rat (3/10)), (some acme, .rat (1/5))]
    [Ev.countProbe, Ev.embedCall "hi", Ev.rpcCall (1/2) 5]
    [betaCo.toSource, acme.toSource]
    (by decide) (by decide) (by decide) (by decide) rfl

/-! ### Client-side scoring safety (C8) -/

theorem foldl_sq_eq (l : List ℚ) (a : ℚ) :
    l.foldl (fun s x => s + x * x) a = a + (l.map (fun x => x * x)).sum := by
  induction l generalizing a with
  | nil => simp
  | cons x xs ih => simp [ih]; ring

theorem foldl_dp_eq (l : List (ℚ × ℚ)) (a : ℚ) :
    l.foldl (fun s p => s + p.1 * p.2) a = a + (l.map (fun p => p.1 * p.2)).sum := by
  induction l generalizing a with
  | nil => simp
  | cons x xs ih => simp [ih]; ring

theorem sum_sq_zero {l : List ℚ} (h : (l.map (fun x => x * x)).sum = 0) :
    ∀ x ∈ l, x = 0 := by
  induction l with
  | nil => simp
  | cons y ys ih =>
    simp only [List.map_cons, List.sum_cons] at h
    have hy : 0 ≤ y * y := mul_self_nonneg y
    have hs : 0 ≤ (ys.map (fun x => x * x)).sum := by
      refine List.sum_nonneg ?_
      intro x hx
      obtain ⟨z, hz, rfl⟩ := List.mem_map.mp hx
      exact mul_self_nonneg z
    have hy0 : y * y = 0 := by linarith
    have hs0 : (ys.map (fun x => x * x)).sum = 0 := by linarith
    intro x hx
    rcases List.mem_cons.mp hx with rfl | hx'
    · exact mul_self_eq_zero.mp hy0
    · exact ih hs0 x hx'

/-- A zero value of the `nB` sum means the second vector is the zero
vector. -/
theorem cosineParts_nB_zero {q v : List ℚ} (h : (cosineParts q v).nB = 0) :
    ∀ x ∈ v, x = 0 := by
  unfold cosineParts at h
  dsimp only at h
  rw [foldl_sq_eq, zero_add] at h
  exact sum_sq_zero h

/-- A zero second vector forces a zero dot product. -/
theorem dp_zero_of_right_zero {a b : List ℚ} (h : ∀ x ∈ b, x = 0) :
    (cosineParts a b).dp = 0 := by
  unfold cosineParts
  dsimp only
  rw [foldl_dp_eq, zero_add]
  refine List.sum_eq_zero ?_
  intro x hx
  obtain ⟨p, hp, rfl⟩ := List.mem_map.mp hx
  have hmem := List.of_mem_zip hp
  rw [h p.2 hmem.2, mul_zero]

theorem scoreRow_ok (q : List ℚ) (row : EmbRow) :
    ∃ o, scoreRow q row = .ok o := by
  unfold scoreRow
  rcases row.embedding.decode with _ | v
  · exact ⟨none, rfl⟩
  · dsimp only
    by_cases hl : v.length ≠ q.length
    · rw [if_pos hl]
      exact ⟨none, rfl⟩
    · rw [if_neg hl]
      have hcd : cosineDistance q v = some (cosineParts q v) := by
        unfold cosineDistance
        rw [if_neg (fun hne => hne (not_not.mp hl).symm)]
      rw [hcd]
      exact ⟨_, rfl⟩

theorem clientSimilarities_ok (q : List ℚ) (rows : List EmbRow) (k : Nat) :
    ∃ l, clientSimilarities q rows k = .ok l := by
  obtain ⟨bs, hbs⟩ := mapExcept_ok_of (scoreRow q) rows
    (fun row _ => scoreRow_ok q row)
  exact ⟨_, by unfold clientSimilarities; rw [hbs]; rfl⟩

/-- C8: the client-side scoring never throws: scoring always succeeds (the
length-mismatch throw inside `cosineDistance` is unreachable because a
decoded vector whose length differs from the query embedding is skipped
before any distance computation), a length-mismatched vector contributes no
candidate, a zero-norm vector contributes no candidate (its `NaN` distance
fails the `< 0.5` similarity floor), and the whole client-side path always
completes without error. -/
theorem C8_client_scoring_total :
    (∀ (q : List ℚ) (rows : List EmbRow) (k : Nat),
        ∃ l, clientSimilarities q rows k = .ok l) ∧
    (∀ (q : List ℚ) (row : EmbRow) (v : List ℚ),
        row.embedding.decode = some v → v.length ≠ q.length →
        scoreRow q row = .ok none) ∧
    (∀ (q : List ℚ) (row : EmbRow) (v : List ℚ),
        row.embedding.decode = some v → v.length = q.length →
        (cosineParts q v).nB = 0 →
        scoreRow q row = .ok none) ∧
    (∀ (env : Env) (qv : List ℚ) (k : Nat),
        ∃ r tr, clientPath env qv k = (.ok r, tr)) := by
  refine ⟨clientSimilarities_ok, ?_, ?_, ?_⟩
  · intro q row v hdec hlen
    unfold scoreRow
    rw [hdec]
    dsimp only
    rw [if_pos hlen]
  · intro q row v hdec hlen hz
    have hdp : (cosineParts q v).dp = 0 :=
      dp_zero_of_right_zero (cosineParts_nB_zero hz)
    unfold scoreRow
    rw [hdec]
    dsimp only
    rw [if_neg (fun hne => hne hlen)]
    have hcd : cosineDistance q v = some (cosineParts q v) := by
      unfold cosineDistance
      rw [if_neg (fun hne => hne hlen.symm)]
    rw [hcd]
    have hlt : (cosineParts q v).distLtHalf = false := by
      unfold CosParts.distLtHalf
      rw [hdp]
      simp
    dsimp only
    rw [hlt]
    rfl
  · intro env qv k
    unfold clientPath
    rcases env.embRows.data with _ | rows
    · exact ⟨[], _, rfl⟩
    · rcases env.embRows.err with _ | _
      · dsimp only
        by_cases hl : rows.length > 0
        · rw [if_pos hl]
          obtain ⟨l, hsim⟩ := clientSimilarities_ok qv rows k
          rw [hsim]
          rcases env.companiesByIds with _ | cs
          · exact ⟨_, _, rfl⟩
          · exact ⟨_, _, rfl⟩
        · rw [if_neg hl]
          exact ⟨_, _, rfl⟩
      · exact ⟨_, _, rfl⟩

/-- C8 witness: a three-row store holding a zero-norm vector, a
wrong-dimension vector and a malformed value is scored without error; the
wrong-dimension and zero-norm rows are both skipped. -/
theorem C8_client_scoring_total_witness :
    (∃ l, clientSimilarities [1, 0]
      [⟨"a", .arr [0, 0]⟩, ⟨"b", .arr [1, 0, 0]⟩, ⟨"c", .other⟩] 5 = .ok l) ∧
    scoreRow [1, 0] ⟨"b", .arr [1, 0, 0]⟩ = .ok none ∧
    scoreRow [1, 0] ⟨"a", .arr [0, 0]⟩ = .ok none ∧
    ∃ r tr, clientPath envBase [1, 0] 5 = (.ok r, tr) :=
  ⟨C8_client_scoring_total.1 [1, 0]
      [⟨"a", .arr [0, 0]⟩, ⟨"b", .arr [1, 0, 0]⟩, ⟨"c", .other⟩] 5,
   C8_client_scoring_total.2.1 [1, 0] ⟨"b", .arr [1, 0, 0]⟩ [1, 0, 0]
      rfl (by decide),
   C8_client_scoring_total.2.2.1 [1, 0] ⟨"a", .arr [0, 0]⟩ [0, 0]
      rfl rfl (by decide),
   C8_client_scoring_total.2.2.2 envBase [1, 0] 5⟩

/-! ### Transparent degradation on RPC failure (C7) -/

theorem keywordFallback_all_some (env : Env) (msg : String) (k : Nat) :
    ∀ sc ∈ (keywordFallback env msg k).1, sc.1.isSome = true := by
  unfold keywordFallback
  rcases tokensLonger 3 msg with _ | ⟨t, ts⟩
  · simp
  · rcases env.keywordB.data with _ | ks
    · simp
    · rcases env.keywordB.err with _ | _
      · dsimp only
        by_cases hl : ks.length > 0
        · rw [if_pos hl]
          intro sc hsc
          simp only [List.mem_map] at hsc
          obtain ⟨c, hc, rfl⟩ := hsc
          rfl
        · rw [if_neg hl]
          simp
      · simp

theorem blindFallback_all_some (env : Env) :
    ∀ sc ∈ (blindFallback env).1, sc.1.isSome = true := by
  unfold blindFallback
  rcases env.allCompanies.data with _ | cs
  · simp
  · rcases env.allCompanies.err with _ | _
    · dsimp only
      by_cases hl : cs.length > 0
      · rw [if_pos hl]
        intro sc hsc
        simp only [List.mem_map] at hsc
        obtain ⟨c, hc, rfl⟩ := hsc
        rfl
      · rw [if_neg hl]
        simp
    · simp

theorem clientPath_ok_all_some (env : Env) (q : List ℚ) (k : Nat)
    (rows : List EmbRow) (cs : List Company)
    (he : env.embRows = ⟨some rows, false⟩)
    (hc : env.companiesByIds = some cs)
    (hcov : ∀ l, clientSimilarities q rows k = .ok l →
      ∀ p ∈ l, (cs.find? (fun c => c.id == p.1)).isSome = true) :
    ∃ top tr, clientPath env q k = (.ok top, tr) ∧
      ∀ sc ∈ top, sc.1.isSome = true := by
  unfold clientPath
  rw [he]
  dsimp only
  by_cases hl : rows.length > 0
  · rw [if_pos hl]
    obtain ⟨l, hsim⟩ := clientSimilarities_ok q rows k
    rw [hsim, hc]
    refine ⟨_, _, rfl, ?_⟩
    intro sc hsc
    simp only [List.mem_map] at hsc
    obtain ⟨p, hp, rfl⟩ := hsc
    exact hcov l hsim p hp
  · rw [if_neg hl]
    exact ⟨[], _, rfl, by simp⟩

theorem branchB_ok_all_some (env : Env) (msg : String) (k : Nat) (q : List ℚ)
    (rows : List EmbRow) (cs : List Company)
    (hq : env.genEmbedding = .ok q)
    (herr : env.rpc.err = true)
    (he : env.embRows = ⟨some rows, false⟩)
    (hc : env.companiesByIds = some cs)
    (hcov : ∀ l, clientSimilarities q rows k = .ok l →
      ∀ p ∈ l, (cs.find? (fun c => c.id == p.1)).isSome = true) :
    ∃ top tr, branchB env msg k = (.ok top, tr) ∧
      ∀ sc ∈ top, sc.1.isSome = true := by
  obtain ⟨topc, trc, hcp, hcall⟩ := clientPath_ok_all_some env q k rows cs he hc hcov
  have hvs : vecStage env q k = (.ok topc, Ev.rpcCall (1/2) k :: trc) := by
    unfold vecStage
    rw [if_pos herr, hcp]
  unfold branchB
  simp only [hq, hvs]
  by_cases ht : topc.isEmpty
  · rw [if_pos ht]
    rcases hkw : keywordFallback env msg k with ⟨top₂, tr₂⟩
    have hk2 := keywordFallback_all_some env msg k
    rw [hkw] at hk2
    simp only [hkw]
    by_cases ht₂ : top₂.isEmpty
    · rw [if_pos ht₂]
      rcases hbl : blindFallback env with ⟨top₃, tr₃⟩
      have hb3 := blindFallback_all_some env
      rw [hbl] at hb3
      simp only [hbl]
      exact ⟨top₃, _, rfl, hb3⟩
    · rw [if_neg ht₂]
      exact ⟨top₂, _, rfl, hk2⟩
  · rw [if_neg ht]
    exact ⟨topc, _, rfl, hcall⟩

theorem projectAll_ok_of_all_some {top : List SC}
    (h : ∀ sc ∈ top, sc.1.isSome = true) :
    ∃ ps, projectAll top = .ok ps := by
  refine mapExcept_ok_of _ top ?_
  intro sc hsc
  have hiss := h sc hsc
  rcases hs : sc.1 with _ | c
  · rw [hs] at hiss
    simp at hiss
  · exact ⟨c.toProj, rfl⟩

theorem finishChat_ok_of (env : Env) (sel : Option Company) (msg : String)
    (top : List SC) (a₁ a₂ : String)
    (hall : ∀ sc ∈ top, sc.1.isSome = true)
    (h₁ : env.complete1 = .ok a₁) (h₂ : env.complete2 = .ok a₂) :
    ∃ ans srcs tr, finishChat env sel msg top = (.ok ans srcs, tr) := by
  obtain ⟨ps, hps⟩ := projectAll_ok_of_all_some hall
  have hctx : ∃ ctx, buildPortfolio sel top = .ok ctx := by
    unfold buildPortfolio
    rw [hps]
    exact ⟨_, rfl⟩
  obtain ⟨ctx, hctx⟩ := hctx
  have hsrcs : ∃ srcs, buildSources sel top = .ok srcs := by
    rw [buildSources_eq, hctx]
    exact ⟨_, rfl⟩
  obtain ⟨srcs, hsrcs⟩ := hsrcs
  unfold finishChat
  rw [hctx, h₁]
  dsimp only
  by_cases hclean : (violationsOf a₁).isEmpty
  · rw [if_pos hclean, hsrcs]
    exact ⟨a₁, srcs, _, rfl⟩
  · rw [if_neg hclean, h₂, hsrcs]
    exact ⟨a₂, srcs, _, rfl⟩

/-- C7: when the similarity RPC reports an error, the engine falls back to
the client-side path, and — provided the client-side store calls and the
completion provider succeed (the embedding rows are fetched without error and
the company fetch covers every id the similarity stage selected) — the
request completes with a 200 response; the RPC failure is never surfaced to
the caller. -/
theorem C7_rpc_failure_degrades :
    ∀ (env : Env) (body : ReqBody) (v : ValidReq) (n : Nat) (q : List ℚ)
      (rows : List EmbRow) (cs : List Company) (a₁ a₂ : String),
      chatRequestSchemaParse body = some v →
      env.embeddingCount = some (n + 1) →
      env.genEmbedding = .ok q →
      env.rpc.err = true →
      env.embRows = ⟨some rows, false⟩ →
      env.companiesByIds = some cs →
      (∀ l, clientSimilarities q rows v.topK = .ok l →
         ∀ p ∈ l, (cs.find? (fun c => c.id == p.1)).isSome = true) →
      env.complete1 = .ok a₁ →
      env.complete2 = .ok a₂ →
      ∃ ans srcs tr, runChat env body = (.ok ans srcs, tr) := by
  intro env body v n q rows cs a₁ a₂ hv hcount hq herr he hc hcov h₁ h₂
  obtain ⟨top, trb, hbb, hall⟩ :=
    branchB_ok_all_some env v.message v.topK q rows cs hq herr he hc hcov
  have hret : retrieveC env v.message v.topK =
      (.ok top, Ev.countProbe :: trb) := by
    unfold retrieveC
    rw [hcount, hbb]
  obtain ⟨ans, srcs, tr₃, hfin⟩ :=
    finishChat_ok_of env (resolveSelected env v.selectedCompanySlug).1
      v.message top a₁ a₂ hall h₁ h₂
  unfold runChat
  rw [hv]
  dsimp only
  rcases hres : resolveSelected env v.selectedCompanySlug with ⟨sel, tr₁⟩
  rw [hres] at hfin
  dsimp only at hfin
  simp only [hres, hret, hfin]
  exact ⟨ans, srcs, _, rfl⟩

/-- C7 witness: a concrete environment whose RPC errors; the client-side path
scores one row and the request still answers 200. -/
theorem C7_rpc_failure_degrades_witness :
    ∃ ans srcs tr,
      runChat { envBase with rpc := ⟨none, true⟩ } ⟨some "hi", none, none⟩ =
        (.ok ans srcs, tr) :=
  C7_rpc_failure_degrades { envBase with rpc := ⟨none, true⟩ }
    ⟨some "hi", none, none⟩ ⟨"hi", none, 5⟩ 2 [1, 0] [⟨"1", .arr [1, 0]⟩]
    [acme] "some answer" "another answer"
    (by decide) rfl rfl rfl rfl rfl
    (by
      intro l hl
      have hl0 : clientSimilarities [1, 0] [⟨"1", EmbVal.arr [1, 0]⟩] 5 =
          .ok [("1", ⟨1, 1, 1⟩)] := by decide
      rw [hl0] at hl
      injection hl with hl
      subst hl
      decide)
    rfl rfl

/-! ### Blind-fallback availability (C5) -/

/-- An environment with an empty embedding store whose keyword search returns
zero candidates while the company store is non-empty and reachable. -/
def envC5 : Env :=
  { envBase with embeddingCount := some 0, keywordA := some [] }

set_option maxRecDepth 8000 in
/-- C5 counterexample: on the empty-embedding-store path the blind fallback
does not exist.  With zero keyword candidates and a non-empty, reachable
company store, the request completes 200 with an empty citation list and an
empty portfolio context passed to the completion provider — refuting the
claim that retrieval is never empty on this path. -/
theorem C5_counterexample :
    (runChat envC5 ⟨some "climate tech", none, none⟩).1 = .ok "some answer" [] ∧
    envC5.keywordA = some [] ∧
    envC5.allCompanies = ⟨some [acme, betaCo], false⟩ ∧
    Ev.completeCall systemPrompt
        (mkUserInstruction (portfolioContextJson []) "climate tech") [] ∈
      (runChat envC5 ⟨some "climate tech", none, none⟩).2 := by
  refine ⟨by decide, rfl, rfl, by decide⟩

theorem projectAll_map_some (cs : List Company) (d : Dist) :
    projectAll (cs.map fun c => ((some c : Option Company), d)) =
      .ok (cs.map Company.toProj) := by
  induction cs with
  | nil => rfl
  | cons c cst ih =>
    unfold projectAll at ih ⊢
    simp only [List.map_cons, mapExcept, ih]

/-- C5 (amended): on the embeddings-present retrieval path, when the vector
stage and the keyword fallback both produce zero candidates and the blind
company fetch succeeds with a non-empty batch (of at most the requested 30
rows), retrieval returns exactly that batch — non-empty, bounded by 30, every
candidate carrying the worst distance 1.0 — and the resulting portfolio
context is never empty.  (On the empty-embedding-store path there is no such
fallback; see the counterexample.) -/
theorem C5_blind_fallback :
    ∀ (env : Env) (msg : String) (k n : Nat) (q : List ℚ)
      (trv trk : List Ev) (cs : List Company),
      env.embeddingCount = some (n + 1) →
      env.genEmbedding = .ok q →
      vecStage env q k = (.ok [], trv) →
      keywordFallback env msg k = ([], trk) →
      env.allCompanies = ⟨some cs, false⟩ →
      cs ≠ [] →
      cs.length ≤ 30 →
      ∃ tr, retrieveC env msg k =
          (.ok (cs.map fun c => ((some c : Option Company), Dist.rat 1)), tr) ∧
        (cs.map fun c => ((some c : Option Company), Dist.rat 1)) ≠ [] ∧
        (cs.map fun c => ((some c : Option Company), Dist.rat 1)).length ≤ 30 ∧
        (∀ sc ∈ cs.map fun c => ((some c : Option Company), Dist.rat 1),
          sc.2 = Dist.rat 1) ∧
        (∀ (sel : Option Company) (ctx : List Proj),
          buildPortfolio sel
            (cs.map fun c => ((some c : Option Company), Dist.rat 1)) = .ok ctx →
          ctx ≠ []) := by
  intro env msg k n q trv trk cs hcount hq hvs hkw hbl hne hlen
  have hblind : blindFallback env =
      (cs.map fun c => ((some c : Option Company), Dist.rat 1),
        [Ev.fetchAll 30]) := by
    unfold blindFallback
    rw [hbl]
    dsimp only
    rw [if_pos (List.length_pos.mpr hne)]
  have hbb : branchB env msg k =
      (.ok (cs.map fun c => ((some c : Option Company), Dist.rat 1)),
        Ev.embedCall msg :: (trv ++ trk ++ [Ev.fetchAll 30])) := by
    unfold branchB
    simp [hq, hvs, hkw, hblind]
  refine ⟨Ev.countProbe :: (Ev.embedCall msg :: (trv ++ trk ++ [Ev.fetchAll 30])),
    ?_, ?_, ?_, ?_, ?_⟩
  · unfold retrieveC
    rw [hcount, hbb]
  · simp [hne]
  · simpa using hlen
  · intro sc hsc
    simp only [List.mem_map] at hsc
    obtain ⟨c, hc, rfl⟩ := hsc
    rfl
  · intro sel ctx hctx
    unfold buildPortfolio at hctx
    rw [projectAll_map_some] at hctx
    simp only [Except.map] at hctx
    injection hctx with hctx
    rcases sel with _ | c
    · rw [← hctx]
      simp [hne]
    · rw [← hctx]
      dsimp only
      split <;> simp [hne]

/-- C5 witness: a concrete embeddings-present environment whose vector stage
and keyword fallback are empty; retrieval returns the two stored companies
with distance 1. -/
theorem C5_blind_fallback_witness :
    ∃ tr, retrieveC { envBase with rpc := ⟨some [], false⟩,
                                   keywordB := ⟨some [], false⟩ } "hi" 5 =
        (.ok ([acme, betaCo].map fun c => ((some c : Option Company), Dist.rat 1)),
          tr) ∧
      ([acme, betaCo].map fun c => ((some c : Option Company), Dist.rat 1)) ≠ [] ∧
      ([acme, betaCo].map fun c =>
        ((some c : Option Company), Dist.rat 1)).length ≤ 30 ∧
      (∀ sc ∈ [acme, betaCo].map fun c => ((some c : Option Company), Dist.rat 1),
        sc.2 = Dist.rat 1) ∧
      (∀ (sel : Option Company) (ctx : List Proj),
        buildPortfolio sel
          ([acme, betaCo].map fun c => ((some c : Option Company), Dist.rat 1)) =
            .ok ctx →
        ctx ≠ []) :=
  C5_blind_fallback { envBase with rpc := ⟨some [], false⟩,
                                   keywordB := ⟨some [], false⟩ }
    "hi" 5 2 [1, 0] [Ev.rpcCall (1/2) 5] [] [acme, betaCo]
    rfl rfl (by decide) (by decide) rfl (by decide) (by decide)

/-! ### Within-stage ordering (C10) -/

theorem pairwise_leB_of_const (d : Dist) {l : List Dist}
    (hd : Dist.leB d d = true) (h : ∀ x ∈ l, x = d) :
    l.Pairwise (fun a b => Dist.leB a b = true) := by
  induction l with
  | nil => exact .nil
  | cons x xs ih =>
    refine .cons ?_ (ih fun y hy => h y (.tail _ hy))
    intro y hy
    rw [h x (.head _), h y (.tail _ hy)]
    exact hd

theorem branchA_const_dist (env : Env) (msg : String) (k : Nat) :
    ∀ sc ∈ (branchA env msg k).1, sc.2 = Dist.rat (9/10) := by
  unfold branchA
  rcases tokensLonger 2 msg with _ | ⟨t, ts⟩
  · simp
  · rcases env.keywordA with _ | ks
    · simp
    · dsimp only
      by_cases hl : ks.length > 0
      · rw [if_pos hl]
        intro sc hsc
        simp only [List.mem_map] at hsc
        obtain ⟨c, hc, rfl⟩ := hsc
        rfl
      · rw [if_neg hl]
        simp

theorem keywordFallback_const_dist (env : Env) (msg : String) (k : Nat) :
    ∀ sc ∈ (keywordFallback env msg k).1, sc.2 = Dist.rat (4/5) := by
  unfold keywordFallback
  rcases tokensLonger 3 msg with _ | ⟨t, ts⟩
  · simp
  · rcases env.keywordB.data with _ | ks
    · simp
    · rcases env.keywordB.err with _ | _
      · dsimp only
        by_cases hl : ks.length > 0
        · rw [if_pos hl]
          intro sc hsc
          simp only [List.mem_map] at hsc
          obtain ⟨c, hc, rfl⟩ := hsc
          rfl
        · rw [if_neg hl]
          simp
      · simp

theorem blindFallback_const_dist (env : Env) :
    ∀ sc ∈ (blindFallback env).1, sc.2 = Dist.rat 1 := by
  unfold blindFallback
  rcases env.allCompanies.data with _ | cs
  · simp
  · rcases env.allCompanies.err with _ | _
    · dsimp only
      by_cases hl : cs.length > 0
      · rw [if_pos hl]
        intro sc hsc
        simp only [List.mem_map] at hsc
        obtain ⟨c, hc, rfl⟩ := hsc
        rfl
      · rw [if_neg hl]
        simp
    · simp

theorem clientSimilarities_sorted (q : List ℚ) (rows : List EmbRow) (k : Nat)
    (l : List (String × CosParts)) (h : clientSimilarities q rows k = .ok l) :
    l.Pairwise distAscRel := by
  unfold clientSimilarities at h
  rcases hm : mapExcept (scoreRow q) rows with e | l0 <;> rw [hm] at h
  · exact absurd h (by simp [Except.map])
  · simp only [Except.map] at h
    injection h with h
    have hs : List.Sorted distAscRel
        ((l0.filterMap id).insertionSort distAscRel) :=
      List.sorted_insertionSort distAscRel _
    exact h ▸ List.Pairwise.sublist (List.take_sublist _ _) hs

theorem clientPath_sorted (env : Env) (q : List ℚ) (k : Nat) (top : List SC)
    (tr : List Ev) (h : clientPath env q k = (.ok top, tr)) :
    (top.map (fun sc => sc.2)).Pairwise (fun a b => Dist.leB a b = true) := by
  unfold clientPath at h
  rcases hd : env.embRows.data with _ | rows <;> simp only [hd] at h
  · simp only [Prod.mk.injEq, Except.ok.injEq] at h
    rw [← h.1]
    exact .nil
  · rcases he : env.embRows.err with _ | _ <;> simp only [he] at h
    · by_cases hl : rows.length > 0
      · rw [if_pos hl] at h
        obtain ⟨sims, hsims⟩ := clientSimilarities_ok q rows k
        rw [hsims] at h
        rcases hci : env.companiesByIds with _ | cs <;> simp only [hci] at h
        · simp only [Prod.mk.injEq, Except.ok.injEq] at h
          rw [← h.1]
          exact .nil
        · simp only [Prod.mk.injEq, Except.ok.injEq] at h
          rw [← h.1, List.map_map]
          rw [List.pairwise_map]
          refine (clientSimilarities_sorted q rows k sims hsims).imp ?_
          intro s₁ s₂ hrel
          unfold distAscRel at hrel
          simp only [Function.comp, Dist.leB, decide_eq_true_eq]
          exact hrel
      · rw [if_neg hl] at h
        simp only [Prod.mk.injEq, Except.ok.injEq] at h
        rw [← h.1]
        exact .nil
    · simp only [Prod.mk.injEq, Except.ok.injEq] at h
      rw [← h.1]
      exact .nil

theorem searchSimilar_repr (db : DB) (q : List ℚ) (thr : ℚ) (k : Nat) :
    ∃ ps : List (Company × CosParts),
      searchSimilarCompanies db q thr k =
        ps.map (fun p => { company := p.1, distance := some (Dist.sim p.2) }) ∧
      ps.Pairwise sqlOrderRel := by
  refine ⟨_, rfl, ?_⟩
  exact List.Pairwise.sublist (List.take_sublist _ _)
    (List.sorted_insertionSort sqlOrderRel _)

theorem simVal_of_dp_zero {c : CosParts} (h : c.dp = 0) : c.simVal = 0 := by
  simp [CosParts.simVal, h]

theorem leB_flip_of_simVal_le {c₁ c₂ : CosParts}
    (h₁ : c₁.isNaN = false) (h₂ : c₂.isNaN = false)
    (h : c₂.simVal ≤ c₁.simVal) :
    Dist.leB (if (Dist.sim c₂).isFalsy then Dist.rat 0 else Dist.sim c₂)
             (if (Dist.sim c₁).isFalsy then Dist.rat 0 else Dist.sim c₁) = true := by
  have hden₁ : ¬ c₁.den = 0 := by simpa [CosParts.isNaN] using h₁
  have hden₂ : ¬ c₂.den = 0 := by simpa [CosParts.isNaN] using h₂
  by_cases f₁ : (Dist.sim c₁).isFalsy = true <;>
    by_cases f₂ : (Dist.sim c₂).isFalsy = true
  · rw [if_pos f₂, if_pos f₁]
    decide
  · have h1z : c₁.simVal = 0 :=
      simVal_of_dp_zero (by simpa [Dist.isFalsy, hden₁] using f₁)
    rw [if_neg f₂, if_pos f₁]
    simp only [Dist.leB, decide_eq_true_eq, signedSq]
    norm_num
    rw [← h1z]
    exact h
  · have h2z : c₂.simVal = 0 :=
      simVal_of_dp_zero (by simpa [Dist.isFalsy, hden₂] using f₂)
    rw [if_pos f₂, if_neg f₁]
    simp only [Dist.leB, decide_eq_true_eq, signedSq]
    norm_num
    rw [← h2z]
    exact h
  · rw [if_neg f₂, if_neg f₁]
    simpa [Dist.leB] using h

theorem rpcStage_desc (db : DB) (q : List ℚ) (thr : ℚ) (k : Nat)
    (hnn : ∀ r ∈ searchSimilarCompanies db q thr k, ∀ c : CosParts,
      r.distance = some (Dist.sim c) → c.isNaN = false) :
    ((rpcStage db q thr k).map (fun sc => sc.2)).Pairwise
      (fun a b => Dist.leB b a = true) := by
  obtain ⟨ps, hrep, hsort⟩ := searchSimilar_repr db q thr k
  have hnn' : ∀ p ∈ ps, p.2.isNaN = false := by
    intro p hp
    refine hnn ⟨p.1, some (Dist.sim p.2)⟩ ?_ p.2 rfl
    rw [hrep]
    exact List.mem_map.mpr ⟨p, hp, rfl⟩
  unfold rpcStage
  rw [hrep, List.map_map, List.map_map, List.pairwise_map]
  refine hsort.imp_of_mem ?_
  intro p₁ p₂ hp₁ hp₂ hrel
  have h₁ := hnn' p₁ hp₁
  have h₂ := hnn' p₂ hp₂
  have hle : p₂.2.simVal ≤ p₁.2.simVal := by
    unfold sqlOrderRel sqlOrderLe at hrel
    simp [h₁, h₂] at hrel
    exact hrel
  exact leB_flip_of_simVal_le h₁ h₂ hle

/-- Concrete store for the C10 counterexample: two embedded companies with
similarities 0.8 and 0.6 against the query. -/
def dbC10 : DB :=
  ⟨[acme, betaCo],
   [⟨"1", "description", [4, 3]⟩, ⟨"2", "description", [3, 4]⟩]⟩

/-- C10 counterexample: the RPC stage aliases the similarity
`1 - (embedding <=> query)` as the `distance` column while ordering by the
true cosine distance, so the candidates the route receives carry distance
fields 0.8 then 0.6 — a numerically DESCENDING list, refuting the ascending
claim for this stage. -/
theorem C10_counterexample :
    (rpcStage dbC10 [5, 0] (1/2) 5).map (fun sc => sc.2) =
      [.sim ⟨20, 25, 25⟩, .sim ⟨15, 25, 25⟩] ∧
    ¬ (((rpcStage dbC10 [5, 0] (1/2) 5).map (fun sc => sc.2)).Pairwise
        (fun a b => Dist.leB a b = true)) := by
  constructor
  · decide
  · decide

/-- C10 (amended): within every stage produced by the route itself the
candidate list is ascending in relevance distance — the two keyword stages
and the blind fallback carry constant distances (0.9, 0.8, 1.0) and the
client-side vector path sorts ascending before truncation; the server-side
RPC stage is ordered by ascending true cosine distance, but the `distance`
field it returns is the similarity `1 - (embedding <=> query)`, so the field
values the route stores are descending (when no stored vector is
zero-norm), not ascending. -/
theorem C10_within_stage_ordering :
    (∀ (env : Env) (msg : String) (k : Nat),
      (((branchA env msg k).1.map (fun sc => sc.2)).Pairwise
        (fun a b => Dist.leB a b = true))) ∧
    (∀ (env : Env) (msg : String) (k : Nat),
      (((keywordFallback env msg k).1.map (fun sc => sc.2)).Pairwise
        (fun a b => Dist.leB a b = true))) ∧
    (∀ env : Env,
      (((blindFallback env).1.map (fun sc => sc.2)).Pairwise
        (fun a b => Dist.leB a b = true))) ∧
    (∀ (env : Env) (q : List ℚ) (k : Nat) (top : List SC) (tr : List Ev),
      clientPath env q k = (.ok top, tr) →
      ((top.map (fun sc => sc.2)).Pairwise (fun a b => Dist.leB a b = true))) ∧
    (∀ (db : DB) (q : List ℚ) (thr : ℚ) (k : Nat),
      ∃ ps : List (Company × CosParts),
        searchSimilarCompanies db q thr k =
          ps.map (fun p => { company := p.1, distance := some (Dist.sim p.2) }) ∧
        ps.Pairwise sqlOrderRel) ∧
    (∀ (db : DB) (q : List ℚ) (thr : ℚ) (k : Nat),
      (∀ r ∈ searchSimilarCompanies db q thr k, ∀ c : CosParts,
        r.distance = some (Dist.sim c) → c.isNaN = false) →
      ((rpcStage db q thr k).map (fun sc => sc.2)).Pairwise
        (fun a b => Dist.leB b a = true)) := by
  refine ⟨?_, ?_, ?_, clientPath_sorted, searchSimilar_repr, rpcStage_desc⟩
  · intro env msg k
    refine pairwise_leB_of_const (Dist.rat (9/10)) (by decide) ?_
    intro x hx
    obtain ⟨sc, hsc, rfl⟩ := List.mem_map.mp hx
    exact branchA_const_dist env msg k sc hsc
  · intro env msg k
    refine pairwise_leB_of_const (Dist.rat (4/5)) (by decide) ?_
    intro x hx
    obtain ⟨sc, hsc, rfl⟩ := List.mem_map.mp hx
    exact keywordFallback_const_dist env msg k sc hsc
  · intro env
    refine pairwise_leB_of_const (Dist.rat 1) (by decide) ?_
    intro x hx
    obtain ⟨sc, hsc, rfl⟩ := List.mem_map.mp hx
    exact blindFallback_const_dist env sc hsc

/-- C10 witness: the client-side conjunct applied to a concrete one-row
store, and the descending-field conjunct applied to the two-company store of
the counterexample. -/
theorem C10_within_stage_ordering_witness :
    (([((some acme : Option Company), Dist.dist ⟨1, 1, 1⟩)].map
        (fun sc => sc.2)).Pairwise (fun a b => Dist.leB a b = true)) ∧
    (((rpcStage dbC10 [5, 0] (1/2) 5).map (fun sc => sc.2)).Pairwise
      (fun a b => Dist.leB b a = true)) :=
  ⟨C10_within_stage_ordering.2.2.2.1 envBase [1, 0] 5
      [((some acme : Option Company), Dist.dist ⟨1, 1, 1⟩)]
      [Ev.fetchEmbRows, Ev.fetchByIds ["1"]] (by decide),
   C10_within_stage_ordering.2.2.2.2.2 dbC10 [5, 0] (1/2) 5
    (by
      intro r hr c hc
      have hrows : searchSimilarCompanies dbC10 [5, 0] (1/2) 5 =
          [⟨acme, some (.sim ⟨20, 25, 25⟩)⟩,
           ⟨betaCo, some (.sim ⟨15, 25, 25⟩)⟩] := by decide
      rw [hrows] at hr
      simp only [List.mem_cons, List.not_mem_nil, or_false] at hr
      rcases hr with rfl | rfl <;>
        (simp only at hc
         injection hc with hc
         injection hc with hc
         subst hc
         decide))⟩

end RadChat
